import Mathlib

/-!
Verification development for the nginx log-analysis program (`src/main.py`).

The program's core is:
* `parse_log_line` (main.py lines 11-23): matches a line against the regex
  `(?P<ip>\d+\.\d+\.\d+\.\d+|\bNULL\b) - - \[(?P<timestamp>[^\]]+)\]
  "(?P<method>\w+) (?P<url>[^\s]+) HTTP/[^\"]+" (?P<status>\d{3})
  (?P<size>\d+|-)$` with `re.match`, then splits the `url` group with
  `urllib.parse.urlparse` into `path` and `query`, returning a dict, or
  `None` when the regex does not match.
* `read_log_file` (lines 26-33): iterates the file line by line and collects
  the non-`None` parses in order.
* the DataFrame pipeline (lines 39-51): converts the `timestamp` column via
  `pd.to_datetime(..., format='%d/%b/%Y:%H:%M:%S %z')` (raising on any
  failure), replaces `'-'` sizes with NaN, casts sizes to float, selects the
  seven columns, and fills NaN sizes with 0.

Strings are embedded as `List Char`; Python character classes are modelled at
their ASCII core (`\d` as ASCII digits, `\w` as ASCII alphanumerics plus
underscore, `\s` as ASCII whitespace); Python exceptions are modelled with
`Except`, `None` with `Option.none`.
-/

namespace NginxLog

abbrev Chars := List Char

/-- Python regex `\d` at its ASCII core: a decimal digit. -/
def isDigitChar (c : Char) : Bool := c.isDigit

/-- Python regex `\w` at its ASCII core: letter, digit or underscore. -/
def isWordChar (c : Char) : Bool := c.isAlphanum || c = '_'

/-- Python regex `\s` at its ASCII core: space, tab, newline, CR, VT, FF. -/
def isSpaceChar (c : Char) : Bool :=
  c = ' ' || c = '\t' || c = '\n' || c = '\r' || c = '\x0b' || c = '\x0c'

/-- Greedy scan: the longest prefix whose characters satisfy `p`, with the
remainder.  This is the semantics of a greedy character class in the regex:
with the classes used here the following literal is never in the class, so
the regex engine's backtracking never shortens the scanned run. -/
def spanP (p : Char → Bool) : Chars → Chars × Chars
  | [] => ([], [])
  | c :: cs =>
    if p c then
      let t := spanP p cs
      (c :: t.1, t.2)
    else ([], c :: cs)

/-- Match a literal sequence of characters, returning the remainder. -/
def expectLit : Chars → Chars → Option Chars
  | [], cs => some cs
  | _ :: _, [] => none
  | l :: ls, c :: cs => if c = l then expectLit ls cs else none

/-- A matching stage: consumes a prefix of the input, producing a capture and
the remainder, or fails. -/
def StageE (α : Type) : Type := Chars → Option (α × Chars)

/-- Sequencing of stages (the concatenation of regex pieces). -/
def sBind {α β : Type} (f : StageE α) (g : α → StageE β) : StageE β :=
  fun cs => (f cs).bind (fun p => g p.1 p.2)

/-- Stage producing a value without consuming input. -/
def sPure {α : Type} (a : α) : StageE α := fun cs => some (a, cs)

/-- Stage for a regex literal. -/
def sLit (lit : Chars) : StageE Unit :=
  fun cs =>
    match expectLit lit cs with
    | some r => some ((), r)
    | none => none

/-- Stage for a greedy one-or-more character class (`X+`). -/
def sMunch1 (p : Char → Bool) : StageE Chars :=
  fun cs =>
    let t := spanP p cs
    if t.1.isEmpty then none else some (t.1, t.2)

/-- Stage for a greedy one-or-more class immediately followed by a one-character
literal not in the class (`[^c]+c`), fused so that the stage as a whole is
deterministic. -/
def munchThen (p : Char → Bool) (c : Char) : StageE Chars :=
  sBind (sMunch1 p) (fun t => sBind (sLit [c]) (fun _ => sPure t))

/-- Stage for `\d{3}`: exactly three digits. -/
def sDigits3 : StageE Chars
  | c1 :: c2 :: c3 :: r =>
    if isDigitChar c1 && isDigitChar c2 && isDigitChar c3 then
      some ([c1, c2, c3], r)
    else none
  | _ => none

/-- Stage for the size group `\d+|-`. -/
def sSize : StageE Chars :=
  fun cs =>
    match sMunch1 isDigitChar cs with
    | some v => some v
    | none =>
      match expectLit ['-'] cs with
      | some r => some (['-'], r)
      | none => none

/-- The dotted alternative of the ip group: `\d+\.\d+\.\d+\.\d+`. -/
def matchDotted : StageE Chars :=
  sBind (sMunch1 isDigitChar) (fun d1 =>
  sBind (sLit ['.']) (fun _ =>
  sBind (sMunch1 isDigitChar) (fun d2 =>
  sBind (sLit ['.']) (fun _ =>
  sBind (sMunch1 isDigitChar) (fun d3 =>
  sBind (sLit ['.']) (fun _ =>
  sBind (sMunch1 isDigitChar) (fun d4 =>
  sPure (d1 ++ '.' :: d2 ++ '.' :: d3 ++ '.' :: d4))))))))

/-- The `\bNULL\b` alternative of the ip group.  `re.match` anchors at
position 0 where the leading boundary holds because `N` is a word character;
the trailing boundary requires the next character to be a non-word character
or the end of input. -/
def matchNull : StageE Chars :=
  fun cs =>
    match expectLit ['N', 'U', 'L', 'L'] cs with
    | none => none
    | some r =>
      match r with
      | [] => some (['N', 'U', 'L', 'L'], [])
      | c :: _ => if isWordChar c then none else some (['N', 'U', 'L', 'L'], r)

/-- The ip group `\d+\.\d+\.\d+\.\d+|\bNULL\b`, alternatives in regex order. -/
def matchIp : StageE Chars :=
  fun cs =>
    match matchDotted cs with
    | some v => some v
    | none => matchNull cs

/-- The six named captures of `log_pattern`. -/
structure LogGroups where
  ip : Chars
  timestamp : Chars
  method : Chars
  url : Chars
  status : Chars
  size : Chars
deriving Repr, DecidableEq

/-- The whole of `log_pattern` except the final `$` anchor: the sequence of
groups and literals, returning the captures and the unconsumed remainder. -/
def matchRaw : StageE LogGroups :=
  sBind matchIp (fun ip =>
  sBind (sLit (" - - [".data)) (fun _ =>
  sBind (munchThen (fun c => c ≠ ']') ']') (fun ts =>
  sBind (sLit (" \"".data)) (fun _ =>
  sBind (sMunch1 isWordChar) (fun m =>
  sBind (sLit [' ']) (fun _ =>
  sBind (sMunch1 (fun c => !isSpaceChar c)) (fun u =>
  sBind (sLit (" HTTP/".data)) (fun _ =>
  sBind (munchThen (fun c => c ≠ '"') '"') (fun _v =>
  sBind (sLit [' ']) (fun _ =>
  sBind sDigits3 (fun st =>
  sBind (sLit [' ']) (fun _ =>
  sBind sSize (fun sz =>
  sPure (LogGroups.mk ip ts m u st sz))))))))))))))

/-- `log_pattern.match line`: the raw match followed by the `$` anchor, which
in a Python non-MULTILINE pattern accepts the end of the string or the
position just before a single final newline. -/
def matchLogPattern (cs : Chars) : Option LogGroups :=
  match matchRaw cs with
  | some (g, rest) => if rest = [] ∨ rest = ['\n'] then some g else none
  | none => none

/-! ## Model of `urllib.parse.urlparse` (path and query outputs)

`parse_log_line` uses only `parsed_url.path` and `parsed_url.query`.  CPython's
`urlsplit` strips leading C0-control/space characters, removes tab, CR and LF,
splits off a scheme (when the text before the first `:` is a well-formed
scheme starting with an ASCII letter), splits off a netloc after a leading
`//` (raising `ValueError` on unbalanced square brackets; the additional
bracketed-host validation of newer CPython is not modelled — no claim
exercises a bracketed netloc), then splits off the fragment at the first `#`
and the query at the first `?`.  `urlparse` additionally splits `;params`
off the last path segment. -/

/-- WHATWG C0 control or space: code points U+0000 through U+0020. -/
def isC0OrSpace (c : Char) : Bool := c ≤ ' '

/-- Characters allowed in a URL scheme. -/
def isSchemeChar (c : Char) : Bool :=
  c.isAlpha || c.isDigit || c = '+' || c = '-' || c = '.'

/-- Split at the first occurrence of `sep` (Python `str.split(sep, 1)` when
`sep` occurs); `none` when `sep` does not occur. -/
def splitOnFirst (sep : Char) : Chars → Option (Chars × Chars)
  | [] => none
  | c :: cs =>
    if c = sep then some ([], cs)
    else
      match splitOnFirst sep cs with
      | some (a, b) => some (c :: a, b)
      | none => none

/-- The scheme-splitting step of `urlsplit`: when the text before the first
`:` is a nonempty run of scheme characters starting with an ASCII letter, the
scheme (with the colon) is removed. -/
def dropScheme (url : Chars) : Chars :=
  match splitOnFirst ':' url with
  | some (before, after) =>
    if !before.isEmpty && headIsAlpha before && before.all isSchemeChar then after
    else url
  | none => url
where
  headIsAlpha : Chars → Bool
    | [] => false
    | c :: _ => c.isAlpha

/-- The netloc-splitting step of `urlsplit`: after a leading `//`, the netloc
extends to the next `/`, `?` or `#`; unbalanced square brackets raise
`ValueError("Invalid IPv6 URL")`. -/
def dropNetloc (url : Chars) : Except String Chars :=
  if url.take 2 = ['/', '/'] then
    let t := spanP (fun c => c ≠ '/' && c ≠ '?' && c ≠ '#') (url.drop 2)
    if (t.1.contains '[' && !t.1.contains ']')
        || (t.1.contains ']' && !t.1.contains '[') then
      .error "Invalid IPv6 URL"
    else .ok t.2
  else .ok url

/-- The fragment-splitting step of `urlsplit`: everything from the first `#`
on is the fragment and is dropped here. -/
def dropFragment (url : Chars) : Chars :=
  match splitOnFirst '#' url with
  | some p => p.1
  | none => url

/-- The query-splitting step of `urlsplit`: split at the first `?`; the query
is empty when there is none. -/
def splitQuery (url : Chars) : Except String (Chars × Chars) :=
  match splitOnFirst '?' url with
  | some p => .ok (p.1, p.2)
  | none => .ok (url, [])

/-- `urlsplit` restricted to its `(path-with-params, query)` outputs. -/
def urlsplitPathQuery (url : Chars) : Except String (Chars × Chars) :=
  match dropNetloc (dropScheme ((url.dropWhile isC0OrSpace).filter
      (fun c => c ≠ '\t' && c ≠ '\r' && c ≠ '\n'))) with
  | .error e => .error e
  | .ok url4 => splitQuery (dropFragment url4)

/-- The `_splitparams` step of `urlparse`: drop `;params` from the last path
segment (the first `;` at or after the last `/`). -/
def splitParamsPath (url : Chars) : Chars :=
  if url.contains '/' then
    let tail := (url.reverse.takeWhile (fun c => c ≠ '/')).reverse
    match splitOnFirst ';' tail with
    | some (b, _) => url.take (url.length - tail.length) ++ b
    | none => url
  else
    match splitOnFirst ';' url with
    | some (b, _) => b
    | none => url

/-- `urlparse(url).path` and `urlparse(url).query`: `urlsplit` followed by the
params split on the path (guarded, as in CPython, by `';' in url`). -/
def urlparsePathQuery (url : Chars) : Except String (Chars × Chars) :=
  match urlsplitPathQuery url with
  | .error e => .error e
  | .ok pq =>
    .ok (if pq.1.contains ';' then splitParamsPath pq.1 else pq.1, pq.2)

/-! ## `parse_log_line` and `read_log_file` -/

/-- The dict returned by `parse_log_line` on a match: the six regex captures
with `url` replaced by `urlparse(url).path` and `query_parameters` added as
`urlparse(url).query`. -/
structure LogDict where
  ip : String
  timestamp : String
  method : String
  url : String
  status : String
  size : String
  query_parameters : String
deriving Repr, DecidableEq

/-- The dict built from the captures and the `urlparse` path/query pair. -/
def mkLogDict (g : LogGroups) (pq : Chars × Chars) : LogDict :=
  { ip := ⟨g.ip⟩
    timestamp := ⟨g.timestamp⟩
    method := ⟨g.method⟩
    url := ⟨pq.1⟩
    status := ⟨g.status⟩
    size := ⟨g.size⟩
    query_parameters := ⟨pq.2⟩ }

/-- The matched branch of `parse_log_line`: run `urlparse` on the `url`
capture (its `ValueError` propagates) and build the returned dict. -/
def parseMatched (g : LogGroups) : Except String (Option LogDict) :=
  match urlparsePathQuery g.url with
  | .error e => .error e
  | .ok pq => .ok (some (mkLogDict g pq))

/-- `parse_log_line` (main.py lines 11-23).  `.ok none` models returning
`None` (no regex match), `.ok (some d)` models returning a dict, `.error`
models a Python exception escaping (only `urlparse`'s `ValueError` can). -/
def parseLogLineCore (cs : Chars) : Except String (Option LogDict) :=
  match matchLogPattern cs with
  | none => .ok none
  | some g => parseMatched g

/-- `parse_log_line` on a Lean `String`. -/
def parseLogLine (s : String) : Except String (Option LogDict) :=
  parseLogLineCore s.data

/-- `read_log_file` (main.py lines 26-33) on the file's list of lines (as
produced by Python file iteration, each non-final line keeping its trailing
newline): collect the successful parses in file order; an exception inside
`parse_log_line` propagates. -/
def readLogFile : List String → Except String (List LogDict)
  | [] => .ok []
  | l :: ls =>
    match parseLogLine l with
    | .error e => .error e
    | .ok r =>
      match readLogFile ls with
      | .error e => .error e
      | .ok rest =>
        match r with
        | some d => .ok (d :: rest)
        | none => .ok rest

/-! ## The DataFrame coercion pipeline (main.py lines 39-51)

The timestamp column is converted with
`pd.to_datetime(df['timestamp'], format='%d/%b/%Y:%H:%M:%S %z')`, which
raises (aborting the run) as soon as any value fails the layout; the format
semantics modelled below follow the strptime directives: `%d` one or two
digits valued 1..31, `%b` a case-insensitive English three-letter month
abbreviation, `%Y` exactly four digits, `%H`/`%M`/`%S` one or two digits
(bounded by the directive's regex), `%z` a sign with `HH[:]MM` and optional
seconds, or `Z`; the subsequent datetime construction additionally rejects
out-of-range calendar dates, seconds above 59, year 0, and offsets of 24
hours or more.  Fractional offset seconds (`+HHMMSS.ffffff`) are not
modelled; no claim exercises them. -/

/-- A timezone-aware calendar moment. -/
structure Moment where
  year : Nat
  month : Nat
  day : Nat
  hour : Nat
  minute : Nat
  second : Nat
  offsetSeconds : Int
deriving Repr, DecidableEq

def digitVal (c : Char) : Nat := c.toNat - '0'.toNat

/-- A strptime numeric directive: greedily two digits when their value
satisfies `twoOk`, otherwise one digit satisfying `oneOk`.  The literal
following each numeric field in this format is never a digit, so the regex
engine's backtracking never changes the greedy outcome. -/
def grabNum (twoOk oneOk : Nat → Bool) : Chars → Option (Nat × Chars)
  | c1 :: c2 :: r =>
    if isDigitChar c1 && isDigitChar c2 && twoOk (digitVal c1 * 10 + digitVal c2) then
      some (digitVal c1 * 10 + digitVal c2, r)
    else if isDigitChar c1 && oneOk (digitVal c1) then
      some (digitVal c1, c2 :: r)
    else none
  | [c1] =>
    if isDigitChar c1 && oneOk (digitVal c1) then some (digitVal c1, []) else none
  | [] => none

/-- The `%Y` directive: exactly four digits. -/
def grab4Digits : Chars → Option (Nat × Chars)
  | c1 :: c2 :: c3 :: c4 :: r =>
    if isDigitChar c1 && isDigitChar c2 && isDigitChar c3 && isDigitChar c4 then
      some (digitVal c1 * 1000 + digitVal c2 * 100 + digitVal c3 * 10 + digitVal c4, r)
    else none
  | _ => none

/-- Case-insensitive English abbreviated month name, as strptime's `%b`. -/
def monthAbbrev? (c1 c2 c3 : Char) : Option Nat :=
  let l := [c1.toLower, c2.toLower, c3.toLower]
  if l = ['j', 'a', 'n'] then some 1
  else if l = ['f', 'e', 'b'] then some 2
  else if l = ['m', 'a', 'r'] then some 3
  else if l = ['a', 'p', 'r'] then some 4
  else if l = ['m', 'a', 'y'] then some 5
  else if l = ['j', 'u', 'n'] then some 6
  else if l = ['j', 'u', 'l'] then some 7
  else if l = ['a', 'u', 'g'] then some 8
  else if l = ['s', 'e', 'p'] then some 9
  else if l = ['o', 'c', 't'] then some 10
  else if l = ['n', 'o', 'v'] then some 11
  else if l = ['d', 'e', 'c'] then some 12
  else none

def grabMonth : Chars → Option (Nat × Chars)
  | c1 :: c2 :: c3 :: r => (monthAbbrev? c1 c2 c3).map (fun m => (m, r))
  | _ => none

/-- The `%z` directive: `Z`, or a sign, two hour digits, an optional colon,
two minute digits (tens digit 0-5), and optionally two more second digits
(again with an optional colon).  The resulting offset must be strictly
smaller than 24 hours in magnitude or `timezone()` raises. -/
def grabOffset : Chars → Option (Int × Chars)
  | [] => none
  | 'Z' :: r => some (0, r)
  | c :: r =>
    if c = '+' || c = '-' then
      match r with
      | h1 :: h2 :: r2 =>
        if isDigitChar h1 && isDigitChar h2 then
          let hh := digitVal h1 * 10 + digitVal h2
          let r3 := match r2 with
            | ':' :: r3 => r3
            | _ => r2
          match r3 with
          | m1 :: m2 :: r4 =>
            if ('0' ≤ m1 && m1 ≤ '5') && isDigitChar m2 then
              let mm := digitVal m1 * 10 + digitVal m2
              let (ss, r6) :=
                let r5 := match r4 with
                  | ':' :: r5 => r5
                  | _ => r4
                match r5 with
                | s1 :: s2 :: r6 =>
                  if ('0' ≤ s1 && s1 ≤ '5') && isDigitChar s2 then
                    (digitVal s1 * 10 + digitVal s2, r6)
                  else (0, r4)
                | _ => (0, r4)
              let total : Nat := hh * 3600 + mm * 60 + ss
              if total < 24 * 3600 then
                some (if c = '-' then -(total : Int) else (total : Int), r6)
              else none
            else none
          | _ => none
        else none
      | _ => none
    else none

def isLeapYear (y : Nat) : Bool := (y % 4 = 0 && y % 100 ≠ 0) || y % 400 = 0

def daysInMonth (y m : Nat) : Nat :=
  if m = 2 then (if isLeapYear y then 29 else 28)
  else if m = 4 || m = 6 || m = 9 || m = 11 then 30
  else 31

/-- One value of the timestamp column through
`pd.to_datetime(..., format='%d/%b/%Y:%H:%M:%S %z')`: `none` models the
ValueError that aborts the run. -/
def parseTimestampChars (cs : Chars) : Option Moment := do
  let (d, r) ← grabNum (fun v => 1 ≤ v && v ≤ 31) (fun v => 1 ≤ v && v ≤ 9) cs
  let r ← expectLit ['/'] r
  let (mo, r) ← grabMonth r
  let r ← expectLit ['/'] r
  let (y, r) ← grab4Digits r
  let r ← expectLit [':'] r
  let (h, r) ← grabNum (fun v => v ≤ 23) (fun _ => true) r
  let r ← expectLit [':'] r
  let (mi, r) ← grabNum (fun v => v ≤ 59) (fun _ => true) r
  let r ← expectLit [':'] r
  let (s, r) ← grabNum (fun v => v ≤ 61) (fun _ => true) r
  let r ← expectLit [' '] r
  let (off, r) ← grabOffset r
  if r = [] && 1 ≤ y && d ≤ daysInMonth y mo && s ≤ 59 then
    some ⟨y, mo, d, h, mi, s, off⟩
  else none

def parseTimestampStr (s : String) : Option Moment := parseTimestampChars s.data

/-- The timestamp column conversion (main.py line 42): all-or-nothing, the
first failing value raises for the whole run. -/
def coerceTimestamps : List LogDict → Except String (List Moment)
  | [] => .ok []
  | r :: rs =>
    match parseTimestampStr r.timestamp with
    | none => .error "time data does not match format"
    | some m =>
      match coerceTimestamps rs with
      | .error e => .error e
      | .ok ms => .ok (m :: ms)

/-- Decimal value of a digit string. -/
def digitsToNat (l : Chars) : Nat := l.foldl (fun acc c => acc * 10 + digitVal c) 0

/-- One value of the size column through `.replace('-', np.nan).astype(float)`
(main.py line 45): the `-` marker becomes missing (`none`), a digit run
becomes its numeric value (represented exactly; the float64 column of the
program represents the same count), anything else raises.  The parser only
ever produces digit runs or `-` here. -/
def coerceSizeOpt (s : String) : Except String (Option Nat) :=
  if s.data = ['-'] then .ok none
  else if !s.data.isEmpty && s.data.all isDigitChar then .ok (some (digitsToNat s.data))
  else .error "could not convert string to float"

def coerceSizes : List LogDict → Except String (List (Option Nat))
  | [] => .ok []
  | r :: rs =>
    match coerceSizeOpt r.size with
    | .error e => .error e
    | .ok n =>
      match coerceSizes rs with
      | .error e => .error e
      | .ok ns => .ok (n :: ns)

/-- One row of the final row set after column selection (main.py line 48):
exactly the seven columns, in their selected order. -/
structure Row where
  ip : String
  timestamp : Moment
  method : String
  url : String
  status : String
  size : Nat
  query_parameters : String
deriving Repr, DecidableEq

/-- Assemble the final rows: untouched string columns from the parsed dicts,
the coerced timestamp column, and the size column with missing values filled
with 0 (main.py line 51). -/
def buildRows : List LogDict → List Moment → List (Option Nat) → List Row
  | r :: rs, m :: ms, n :: ns =>
    { ip := r.ip, timestamp := m, method := r.method, url := r.url,
      status := r.status, size := n.getD 0, query_parameters := r.query_parameters }
      :: buildRows rs ms ns
  | _, _, _ => []

/-- The whole coercion stage (main.py lines 39-51) in the program's column
order: timestamps first (line 42), then sizes (line 45), then selection and
fill (lines 48, 51). -/
def pipeline (rs : List LogDict) : Except String (List Row) :=
  match coerceTimestamps rs with
  | .error e => .error e
  | .ok ms =>
    match coerceSizes rs with
    | .error e => .error e
    | .ok ns => .ok (buildRows rs ms ns)

/-! ## Spec-side definitions

These two definitions follow the specification's words, not the code; they
exist to be compared with the code's behavior. -/

/-- Modelled from the spec: the request-target split of section 4.1 — `path`
is the substring before the first `?`, `query_parameters` everything after
it, the empty string when the target contains no `?`. -/
def specSplitTarget (t : Chars) : Chars × Chars :=
  match splitOnFirst '?' t with
  | some (p, q) => (p, q)
  | none => (t, [])

/-- Split a string at every occurrence of `sep` (Python `str.split(sep)`). -/
def splitAll (sep : Char) : Chars → List Chars
  | [] => [[]]
  | c :: cs =>
    if c = sep then [] :: splitAll sep cs
    else
      match splitAll sep cs with
      | h :: t => (c :: h) :: t
      | [] => [[c]]

/-- Modelled from the spec: a dotted-quad IPv4 literal — four decimal octets,
each between 0 and 255, separated by dots. -/
def isIPv4DottedQuad (s : Chars) : Bool :=
  let parts := splitAll '.' s
  parts.length == 4 &&
    parts.all (fun p => !p.isEmpty && p.all isDigitChar && digitsToNat p ≤ 255)

/-- What the code's ip alternative actually accepts besides `NULL`: four
dot-separated nonempty digit runs, with no range restriction. -/
def isDigitQuad (s : Chars) : Bool :=
  let parts := splitAll '.' s
  parts.length == 4 && parts.all (fun p => !p.isEmpty && p.all isDigitChar)

/-! ## Concrete lines used in the claim theorems -/

/-- The well-formed example line of the spec (section 8). -/
def exLine : String :=
  "203.0.113.5 - - [10/Oct/2023:13:55:36 +0000] \"GET /index.html?id=42 HTTP/1.1\" 200 512"

/-- The malformed example line of the spec (section 8). -/
def malLine : String := "- - - [bad] \"BAD\" -"

/-- The dict `parse_log_line` returns on `exLine`. -/
def exRec : LogDict :=
  { ip := "203.0.113.5", timestamp := "10/Oct/2023:13:55:36 +0000", method := "GET",
    url := "/index.html", status := "200", size := "512", query_parameters := "id=42" }

/-- The moment `2023-10-10T13:55:36+00:00`. -/
def exMoment : Moment :=
  { year := 2023, month := 10, day := 10, hour := 13, minute := 55, second := 36,
    offsetSeconds := 0 }

/-- The regex captures on `exLine`. -/
def exGroups : LogGroups :=
  { ip := "203.0.113.5".data, timestamp := "10/Oct/2023:13:55:36 +0000".data,
    method := "GET".data, url := "/index.html?id=42".data, status := "200".data,
    size := "512".data }

/-- A grammar-matching line whose request target holds a `#` after the `?`. -/
def fragLine : String :=
  "1.2.3.4 - - [10/Oct/2023:13:55:36 +0000] \"GET /a?b#c HTTP/1.1\" 200 512"

/-- The dict `parse_log_line` returns on `fragLine`. -/
def fragRec : LogDict :=
  { ip := "1.2.3.4", timestamp := "10/Oct/2023:13:55:36 +0000", method := "GET",
    url := "/a", status := "200", size := "512", query_parameters := "b" }

/-- A grammar-matching line whose first field is not an IPv4 address. -/
def ip999Line : String :=
  "999.999.999.999 - - [10/Oct/2023:13:55:36 +0000] \"GET /index.html HTTP/1.1\" 200 512"

/-- The dict `parse_log_line` returns on `ip999Line`. -/
def ip999Rec : LogDict :=
  { ip := "999.999.999.999", timestamp := "10/Oct/2023:13:55:36 +0000", method := "GET",
    url := "/index.html", status := "200", size := "512", query_parameters := "" }

/-- A line the grammar accepts whose timestamp text violates the layout. -/
def badTsLine : String := "1.2.3.4 - - [bad] \"GET /a HTTP/1.1\" 200 5"

/-- The dict `parse_log_line` returns on `badTsLine`. -/
def badTsRec : LogDict :=
  { ip := "1.2.3.4", timestamp := "bad", method := "GET", url := "/a",
    status := "200", size := "5", query_parameters := "" }

/-- A grammar-matching line with a `NULL` client address and a `-` size. -/
def nullLine : String := "NULL - - [10/Oct/2023:13:55:36 +0000] \"POST /x HTTP/2\" 301 -"

/-- The dict `parse_log_line` returns on `nullLine`. -/
def nullRec : LogDict :=
  { ip := "NULL", timestamp := "10/Oct/2023:13:55:36 +0000", method := "POST",
    url := "/x", status := "301", size := "-", query_parameters := "" }

/-- A malformed line: status code of two digits. -/
def shortStatusLine : String :=
  "203.0.113.5 - - [10/Oct/2023:13:55:36 +0000] \"GET /index.html HTTP/1.1\" 20 512"

/-- A malformed line: missing closing quote. -/
def noQuoteLine : String :=
  "203.0.113.5 - - [10/Oct/2023:13:55:36 +0000] \"GET /index.html HTTP/1.1 200 512"

/-- The regex captures on `fragLine`. -/
def fragGroups : LogGroups :=
  { ip := "1.2.3.4".data, timestamp := "10/Oct/2023:13:55:36 +0000".data,
    method := "GET".data, url := "/a?b#c".data, status := "200".data, size := "512".data }

/-- The regex captures on `nullLine`. -/
def nullGroups : LogGroups :=
  { ip := "NULL".data, timestamp := "10/Oct/2023:13:55:36 +0000".data,
    method := "POST".data, url := "/x".data, status := "301".data, size := "-".data }

/-- The final row produced from `nullRec`. -/
def nullRow : Row :=
  { ip := "NULL", timestamp := exMoment, method := "POST", url := "/x",
    status := "301", size := 0, query_parameters := "" }

/-- The final row produced from `exRec`. -/
def exRow : Row :=
  { ip := "203.0.113.5", timestamp := exMoment, method := "GET", url := "/index.html",
    status := "200", size := 512, query_parameters := "id=42" }

/-- Does a line match the grammar (`log_pattern`)? -/
def lineMatches (l : String) : Bool := (matchLogPattern l.data).isSome

/-- The record a line contributes, when `parse_log_line` returns a dict. -/
def lineRecord (l : String) : Option LogDict :=
  match parseLogLine l with
  | .ok (some d) => some d
  | _ => none

/-! ## Helper lemmas: strings -/

theorem strExt {a b : String} (h : a.data = b.data) : a = b := by
  cases a; cases b; exact congrArg String.mk h

theorem strData_append (a b : String) : (a ++ b).data = a.data ++ b.data := rfl

/-! ## Helper lemmas: `expectLit` -/

theorem expectLit_sound (lit : Chars) :
    ∀ cs r, expectLit lit cs = some r → cs = lit ++ r := by
  induction lit with
  | nil =>
    intro cs r h
    simp only [expectLit, Option.some.injEq] at h
    simp [h]
  | cons l ls ih =>
    intro cs r h
    cases cs with
    | nil => simp [expectLit] at h
    | cons c cs' =>
      simp only [expectLit] at h
      split at h
      · next hc =>
        subst hc
        simpa using ih cs' r h
      · exact absurd h (by simp)

theorem expectLit_complete (lit r : Chars) : expectLit lit (lit ++ r) = some r := by
  induction lit with
  | nil => rfl
  | cons l ls ih => simp [expectLit, ih]

theorem expectLit_append {lit cs r : Chars} (d : Chars)
    (h : expectLit lit cs = some r) : expectLit lit (cs ++ d) = some (r ++ d) := by
  have hs := expectLit_sound lit cs r h
  subst hs
  rw [List.append_assoc]
  exact expectLit_complete lit (r ++ d)

/-! ## Helper lemmas: `spanP` -/

theorem spanP_eq (p : Char → Bool) (cs : Chars) :
    (spanP p cs).1 ++ (spanP p cs).2 = cs := by
  induction cs with
  | nil => rfl
  | cons c cs ih =>
    by_cases h : p c
    · simp [spanP, h, ih]
    · simp [spanP, h]

theorem spanP_fst_all (p : Char → Bool) (cs : Chars) :
    ∀ c ∈ (spanP p cs).1, p c := by
  induction cs with
  | nil => intro c hc; simp [spanP] at hc
  | cons d cs ih =>
    by_cases h : p d
    · intro c hc
      simp only [spanP, h, if_true] at hc
      rcases List.mem_cons.mp hc with rfl | hc
      · exact h
      · exact ih c hc
    · intro c hc
      simp [spanP, h] at hc

theorem spanP_snd_head (p : Char → Bool) (cs : Chars) {c : Char} {r : Chars}
    (h : (spanP p cs).2 = c :: r) : p c = false := by
  induction cs with
  | nil => simp [spanP] at h
  | cons d cs ih =>
    by_cases hd : p d
    · simp only [spanP, hd, if_true] at h
      exact ih h
    · simp only [spanP, hd, if_false] at h
      cases h
      simpa using hd

theorem spanP_append_of_snd_cons (p : Char → Bool) (cs d : Chars) {c : Char} {r : Chars}
    (h : (spanP p cs).2 = c :: r) :
    spanP p (cs ++ d) = ((spanP p cs).1, c :: (r ++ d)) := by
  induction cs with
  | nil => simp [spanP] at h
  | cons e cs ih =>
    by_cases he : p e
    · have h' : (spanP p cs).2 = c :: r := by simpa [spanP, he] using h
      rw [List.cons_append]
      simp [spanP, he, ih h']
    · have h' : e :: cs = c :: r := by simpa [spanP, he] using h
      injection h' with h1 h2
      subst h1; subst h2
      rw [List.cons_append]
      simp [spanP, he]

theorem spanP_fst_of_snd_nil (p : Char → Bool) (cs : Chars)
    (h : (spanP p cs).2 = []) : (spanP p cs).1 = cs := by
  have := spanP_eq p cs
  rw [h, List.append_nil] at this
  exact this

theorem spanP_append_of_snd_nil (p : Char → Bool) (cs : Chars) (x : Char)
    (h : (spanP p cs).2 = []) :
    spanP p (cs ++ [x]) = if p x then (cs ++ [x], []) else (cs, [x]) := by
  induction cs with
  | nil =>
    by_cases hx : p x <;> simp [spanP, hx]
  | cons e cs ih =>
    have he : p e = true := by
      by_contra he'
      simp only [Bool.not_eq_true] at he'
      simp [spanP, he'] at h
    have h' : (spanP p cs).2 = [] := by simpa [spanP, he] using h
    rw [List.cons_append]
    by_cases hx : p x
    · simp [spanP, he, hx, ih h']
    · simp [spanP, he, hx, ih h']

/-! ## Helper lemmas: stages and a trailing newline

Three properties drive the analysis of Python's `$` anchor (which accepts the
end of the string or the position just before one final newline): a stage's
success is preserved by appending a newline (`NlExt`), a success on an input
ending in a newline restricts to the input without it (`NlBack`), and a
stage's remainder is a suffix of its input (`SuffixStage`). -/

def NlExt {α : Type} (f : StageE α) : Prop :=
  ∀ cs a r, f cs = some (a, r) → f (cs ++ ['\n']) = some (a, r ++ ['\n'])

def NlBack {α : Type} (f : StageE α) : Prop :=
  ∀ cs a r, f (cs ++ ['\n']) = some (a, r) →
    ∃ r0, r = r0 ++ ['\n'] ∧ f cs = some (a, r0)

def SuffixStage {α : Type} (f : StageE α) : Prop :=
  ∀ cs a r, f cs = some (a, r) → ∃ t, cs = t ++ r

theorem sBind_eq_some {α β : Type} {f : StageE α} {g : α → StageE β}
    {cs : Chars} {b : β} {r : Chars} :
    sBind f g cs = some (b, r) ↔ ∃ a r1, f cs = some (a, r1) ∧ g a r1 = some (b, r) := by
  unfold sBind
  rw [Option.bind_eq_some]
  constructor
  · rintro ⟨⟨a, r1⟩, hf, hg⟩
    exact ⟨a, r1, hf, hg⟩
  · rintro ⟨a, r1, hf, hg⟩
    exact ⟨⟨a, r1⟩, hf, hg⟩

theorem nlExt_sBind {α β : Type} {f : StageE α} {g : α → StageE β}
    (hf : NlExt f) (hg : ∀ a, NlExt (g a)) : NlExt (sBind f g) := by
  intro cs b r h
  rw [sBind_eq_some] at h
  obtain ⟨a, r1, h1, h2⟩ := h
  rw [sBind_eq_some]
  exact ⟨a, r1 ++ ['\n'], hf cs a r1 h1, hg a r1 b r h2⟩

theorem nlBack_sBind {α β : Type} {f : StageE α} {g : α → StageE β}
    (hf : NlBack f) (hg : ∀ a, NlBack (g a)) : NlBack (sBind f g) := by
  intro cs b r h
  rw [sBind_eq_some] at h
  obtain ⟨a, r1, h1, h2⟩ := h
  obtain ⟨r10, rfl, h1'⟩ := hf cs a r1 h1
  obtain ⟨r0, rfl, h2'⟩ := hg a r10 b r h2
  exact ⟨r0, rfl, sBind_eq_some.mpr ⟨a, r10, h1', h2'⟩⟩

theorem suffix_sBind {α β : Type} {f : StageE α} {g : α → StageE β}
    (hf : SuffixStage f) (hg : ∀ a, SuffixStage (g a)) : SuffixStage (sBind f g) := by
  intro cs b r h
  rw [sBind_eq_some] at h
  obtain ⟨a, r1, h1, h2⟩ := h
  obtain ⟨t, rfl⟩ := hf cs a r1 h1
  obtain ⟨u, rfl⟩ := hg a r1 b r h2
  exact ⟨t ++ u, by rw [List.append_assoc]⟩

theorem nlExt_sPure {α : Type} (a : α) : NlExt (sPure a) := by
  intro cs b r h
  simp only [sPure, Option.some.injEq, Prod.mk.injEq] at h
  obtain ⟨rfl, rfl⟩ := h
  rfl

theorem nlBack_sPure {α : Type} (a : α) : NlBack (sPure a) := by
  intro cs b r h
  simp only [sPure, Option.some.injEq, Prod.mk.injEq] at h
  obtain ⟨rfl, rfl⟩ := h
  exact ⟨cs, rfl, rfl⟩

theorem suffix_sPure {α : Type} (a : α) : SuffixStage (sPure a) := by
  intro cs b r h
  simp only [sPure, Option.some.injEq, Prod.mk.injEq] at h
  obtain ⟨rfl, rfl⟩ := h
  exact ⟨[], rfl⟩

theorem sLit_eq_some {lit cs : Chars} {u : Unit} {r : Chars} :
    sLit lit cs = some (u, r) ↔ expectLit lit cs = some r := by
  unfold sLit
  cases h : expectLit lit cs <;> simp

theorem nlExt_sLit (lit : Chars) : NlExt (sLit lit) := by
  intro cs a r h
  rw [sLit_eq_some] at h ⊢
  exact expectLit_append ['\n'] h

theorem nlBack_sLit (lit : Chars) (hnl : '\n' ∉ lit) : NlBack (sLit lit) := by
  intro cs a r h
  rw [sLit_eq_some] at h
  have hs := expectLit_sound lit _ r h
  rcases List.eq_nil_or_concat r with rfl | ⟨r0, x, rfl⟩
  · rw [List.append_nil] at hs
    exact absurd (hs ▸ List.mem_append_right cs (List.mem_singleton.mpr rfl)) hnl
  · rw [List.concat_eq_append, ← List.append_assoc] at hs
    have h2 := List.append_inj' hs rfl
    have hx : '\n' = x := by
      have := h2.2
      injection this
    obtain ⟨hcs, _⟩ := h2
    subst hx
    refine ⟨r0, by simp [List.concat_eq_append], ?_⟩
    rw [hcs]
    exact sLit_eq_some.mpr (expectLit_complete lit r0)

theorem suffix_sLit (lit : Chars) : SuffixStage (sLit lit) := by
  intro cs a r h
  rw [sLit_eq_some] at h
  exact ⟨lit, expectLit_sound lit cs r h⟩

theorem sMunch1_eq_some {p : Char → Bool} {cs t r : Chars} :
    sMunch1 p cs = some (t, r) ↔
      t = (spanP p cs).1 ∧ r = (spanP p cs).2 ∧ (spanP p cs).1 ≠ [] := by
  unfold sMunch1
  by_cases h : (spanP p cs).1 = []
  · simp [h, List.isEmpty_iff]
  · simp only [List.isEmpty_iff]
    rw [if_neg h]
    constructor
    · intro hh
      injection hh with hh
      injection hh with h1 h2
      exact ⟨h1.symm, h2.symm, h⟩
    · rintro ⟨rfl, rfl, _⟩
      rfl

theorem spanP_append_neg_of_snd_nil {p : Char → Bool} {cs : Chars} {x : Char}
    (h : (spanP p cs).2 = []) (hx : p x = false) : spanP p (cs ++ [x]) = (cs, [x]) := by
  rw [spanP_append_of_snd_nil p cs x h, if_neg (by simp [hx])]

theorem spanP_append_pos_of_snd_nil {p : Char → Bool} {cs : Chars} {x : Char}
    (h : (spanP p cs).2 = []) (hx : p x = true) :
    spanP p (cs ++ [x]) = (cs ++ [x], []) := by
  rw [spanP_append_of_snd_nil p cs x h, if_pos hx]

theorem nlExt_sMunch1 {p : Char → Bool} (hp : p '\n' = false) : NlExt (sMunch1 p) := by
  intro cs a r h
  rw [sMunch1_eq_some] at h
  obtain ⟨rfl, rfl, hne⟩ := h
  rcases hsnd : (spanP p cs).2 with _ | ⟨c, r2⟩
  · have hap := spanP_append_neg_of_snd_nil hsnd hp
    rw [sMunch1_eq_some, hap]
    refine ⟨spanP_fst_of_snd_nil p cs hsnd, by simp, ?_⟩
    rw [spanP_fst_of_snd_nil p cs hsnd] at hne
    simpa using hne
  · have hap := spanP_append_of_snd_cons p cs ['\n'] hsnd
    rw [sMunch1_eq_some, hap]
    exact ⟨rfl, rfl, hne⟩

theorem nlBack_sMunch1 {p : Char → Bool} (hp : p '\n' = false) : NlBack (sMunch1 p) := by
  intro cs a r h
  rw [sMunch1_eq_some] at h
  obtain ⟨rfl, rfl, hne⟩ := h
  rcases hsnd : (spanP p cs).2 with _ | ⟨c, r2⟩
  · have hap := spanP_append_neg_of_snd_nil hsnd hp
    rw [hap] at hne ⊢
    refine ⟨[], rfl, ?_⟩
    rw [sMunch1_eq_some, hsnd]
    exact ⟨(spanP_fst_of_snd_nil p cs hsnd).symm ▸ rfl, rfl,
      (spanP_fst_of_snd_nil p cs hsnd).symm ▸ hne⟩
  · have hap := spanP_append_of_snd_cons p cs ['\n'] hsnd
    rw [hap] at hne ⊢
    refine ⟨c :: r2, rfl, ?_⟩
    rw [sMunch1_eq_some, hsnd]
    exact ⟨rfl, rfl, hne⟩

theorem suffix_sMunch1 (p : Char → Bool) : SuffixStage (sMunch1 p) := by
  intro cs a r h
  rw [sMunch1_eq_some] at h
  obtain ⟨rfl, rfl, _⟩ := h
  exact ⟨(spanP p cs).1, (spanP_eq p cs).symm⟩

theorem sMunch1_cons_neg {p : Char → Bool} {x : Char} {l : Chars} (hx : p x = false) :
    sMunch1 p (x :: l) = none := by
  simp [sMunch1, spanP, hx]

theorem munchThen_eq_some {p : Char → Bool} {c : Char} {cs t r : Chars} :
    munchThen p c cs = some (t, r) ↔ sMunch1 p cs = some (t, c :: r) := by
  unfold munchThen
  rw [sBind_eq_some]
  constructor
  · rintro ⟨a, r1, h1, h2⟩
    rw [sBind_eq_some] at h2
    obtain ⟨u, r2, hl, hpu⟩ := h2
    rw [sLit_eq_some] at hl
    have hr1 := expectLit_sound [c] r1 r2 hl
    simp only [sPure, Option.some.injEq, Prod.mk.injEq] at hpu
    obtain ⟨rfl, rfl⟩ := hpu
    rw [hr1] at h1
    simpa using h1
  · intro h1
    refine ⟨t, c :: r, h1, ?_⟩
    rw [sBind_eq_some]
    exact ⟨(), r, sLit_eq_some.mpr (expectLit_complete [c] r), rfl⟩

theorem nlExt_munchThen {p : Char → Bool} {c : Char} : NlExt (munchThen p c) := by
  intro cs a r h
  rw [munchThen_eq_some, sMunch1_eq_some] at h
  obtain ⟨rfl, hsnd, hne⟩ := h
  have hsnd' : (spanP p cs).2 = c :: r := hsnd.symm
  have hap := spanP_append_of_snd_cons p cs ['\n'] hsnd'
  rw [munchThen_eq_some, sMunch1_eq_some, hap]
  exact ⟨rfl, rfl, hne⟩

theorem nlBack_munchThen {p : Char → Bool} {c : Char} (hc : c ≠ '\n') :
    NlBack (munchThen p c) := by
  intro cs a r h
  rw [munchThen_eq_some, sMunch1_eq_some] at h
  obtain ⟨rfl, hsnd, hne⟩ := h
  rcases hs : (spanP p cs).2 with _ | ⟨d, r2⟩
  · rcases hpn : p '\n' with _ | _
    · have hap := spanP_append_neg_of_snd_nil hs hpn
      rw [hap] at hsnd
      injection hsnd with h1 h2
      exact absurd h1 hc
    · have hap := spanP_append_pos_of_snd_nil hs hpn
      rw [hap] at hsnd
      cases hsnd
  · have hap := spanP_append_of_snd_cons p cs ['\n'] hs
    rw [hap] at hsnd hne
    injection hsnd with h1 h2
    subst h1
    subst h2
    refine ⟨r2, rfl, ?_⟩
    rw [hap, munchThen_eq_some, sMunch1_eq_some]
    exact ⟨rfl, hs.symm, hne⟩

theorem suffix_munchThen (p : Char → Bool) (c : Char) : SuffixStage (munchThen p c) := by
  unfold munchThen
  exact suffix_sBind (suffix_sMunch1 p)
    (fun t => suffix_sBind (suffix_sLit [c]) (fun _ => suffix_sPure t))

theorem sDigits3_eq_some {cs st r : Chars} :
    sDigits3 cs = some (st, r) ↔
      ∃ c1 c2 c3, cs = c1 :: c2 :: c3 :: r ∧ st = [c1, c2, c3] ∧
        (isDigitChar c1 && isDigitChar c2 && isDigitChar c3) = true := by
  constructor
  · intro h
    rcases cs with _ | ⟨c1, cs⟩
    · exact absurd h (by simp [sDigits3])
    rcases cs with _ | ⟨c2, cs⟩
    · exact absurd h (by simp [sDigits3])
    rcases cs with _ | ⟨c3, cs⟩
    · exact absurd h (by simp [sDigits3])
    simp only [sDigits3] at h
    split at h
    · next hd =>
      injection h with h'
      injection h' with h1 h2
      exact ⟨c1, c2, c3, by rw [h2], h1.symm, hd⟩
    · cases h
  · rintro ⟨c1, c2, c3, rfl, rfl, hd⟩
    simp [sDigits3, hd]

theorem nlExt_sDigits3 : NlExt sDigits3 := by
  intro cs a r h
  rw [sDigits3_eq_some] at h
  obtain ⟨c1, c2, c3, rfl, rfl, hd⟩ := h
  rw [sDigits3_eq_some]
  exact ⟨c1, c2, c3, by simp, rfl, hd⟩

theorem nlBack_sDigits3 : NlBack sDigits3 := by
  intro cs a r h
  rw [sDigits3_eq_some] at h
  obtain ⟨c1, c2, c3, heq, rfl, hd⟩ := h
  rcases cs with _ | ⟨x1, cs⟩
  · simp at heq
  rcases cs with _ | ⟨x2, cs⟩
  · simp at heq
  rcases cs with _ | ⟨x3, cs⟩
  · simp at heq
    obtain ⟨rfl, rfl, rfl, -⟩ := heq
    rw [Bool.and_eq_true, Bool.and_eq_true] at hd
    exact absurd hd.2 (by decide)
  · have heq' : x1 :: x2 :: x3 :: (cs ++ ['\n']) = c1 :: c2 :: c3 :: r := heq
    injection heq' with e1 heq'
    injection heq' with e2 heq'
    injection heq' with e3 heq'
    subst e1; subst e2; subst e3
    refine ⟨cs, heq'.symm, ?_⟩
    rw [sDigits3_eq_some]
    exact ⟨x1, x2, x3, rfl, rfl, hd⟩

theorem suffix_sDigits3 : SuffixStage sDigits3 := by
  intro cs a r h
  rw [sDigits3_eq_some] at h
  obtain ⟨c1, c2, c3, rfl, rfl, -⟩ := h
  exact ⟨[c1, c2, c3], rfl⟩

theorem sSize_eq_some {cs sz r : Chars} :
    sSize cs = some (sz, r) ↔
      sMunch1 isDigitChar cs = some (sz, r) ∨
        (sMunch1 isDigitChar cs = none ∧ sz = ['-'] ∧ cs = '-' :: r) := by
  unfold sSize
  cases hm : sMunch1 isDigitChar cs with
  | some v =>
    obtain ⟨sz', r'⟩ := v
    constructor
    · intro h
      exact Or.inl h
    · rintro (h | ⟨hno, -, -⟩)
      · exact h
      · cases hno
  | none =>
    cases hl : expectLit ['-'] cs with
    | none =>
      constructor
      · intro h
        cases h
      · rintro (h | ⟨-, -, rfl⟩)
        · cases h
        · rw [show ('-' :: r : Chars) = ['-'] ++ r from rfl, expectLit_complete] at hl
          cases hl
    | some r2 =>
      have hcs := expectLit_sound ['-'] cs r2 hl
      constructor
      · intro h
        injection h with h'
        injection h' with h1 h2
        subst h1
        refine Or.inr ⟨rfl, rfl, ?_⟩
        rw [hcs, h2]
        rfl
      · rintro (h | ⟨-, rfl, hcs'⟩)
        · cases h
        · rw [hcs'] at hcs
          have hcs2 : ('-' : Char) :: r = '-' :: r2 := hcs
          injection hcs2 with _ e
          rw [e]

theorem nlExt_sSize : NlExt sSize := by
  intro cs a r h
  rw [sSize_eq_some] at h
  rw [sSize_eq_some]
  rcases h with h | ⟨hno, rfl, rfl⟩
  · exact Or.inl (nlExt_sMunch1 (by decide) cs a r h)
  · refine Or.inr ⟨?_, rfl, by rw [List.cons_append]⟩
    rw [List.cons_append]
    exact sMunch1_cons_neg (by decide)

theorem nlBack_sSize : NlBack sSize := by
  intro cs a r h
  rw [sSize_eq_some] at h
  rcases h with h | ⟨hno, rfl, hcons⟩
  · obtain ⟨r0, rfl, hback⟩ := nlBack_sMunch1 (by decide) cs a r h
    exact ⟨r0, rfl, sSize_eq_some.mpr (Or.inl hback)⟩
  · rcases cs with _ | ⟨x, cs'⟩
    · cases hcons
    · have hcons' : x :: (cs' ++ ['\n']) = '-' :: r := hcons
      injection hcons' with e1 e2
      subst e1
      refine ⟨cs', e2.symm, ?_⟩
      exact sSize_eq_some.mpr (Or.inr ⟨sMunch1_cons_neg (by decide), rfl, rfl⟩)

theorem suffix_sSize : SuffixStage sSize := by
  intro cs a r h
  rw [sSize_eq_some] at h
  rcases h with h | ⟨-, rfl, rfl⟩
  · exact suffix_sMunch1 isDigitChar cs a r h
  · exact ⟨['-'], rfl⟩

theorem matchDotted_cons_neg {x : Char} {l : Chars} (hx : isDigitChar x = false) :
    matchDotted (x :: l) = none := by
  show sBind (sMunch1 isDigitChar) _ (x :: l) = none
  unfold sBind
  rw [sMunch1_cons_neg hx]
  rfl

theorem nlExt_matchDotted : NlExt matchDotted := by
  unfold matchDotted
  have hd : isDigitChar '\n' = false := by decide
  refine nlExt_sBind (nlExt_sMunch1 hd) (fun d1 => ?_)
  refine nlExt_sBind (nlExt_sLit _) (fun _ => ?_)
  refine nlExt_sBind (nlExt_sMunch1 hd) (fun d2 => ?_)
  refine nlExt_sBind (nlExt_sLit _) (fun _ => ?_)
  refine nlExt_sBind (nlExt_sMunch1 hd) (fun d3 => ?_)
  refine nlExt_sBind (nlExt_sLit _) (fun _ => ?_)
  refine nlExt_sBind (nlExt_sMunch1 hd) (fun d4 => ?_)
  exact nlExt_sPure _

theorem nlBack_matchDotted : NlBack matchDotted := by
  unfold matchDotted
  have hd : isDigitChar '\n' = false := by decide
  refine nlBack_sBind (nlBack_sMunch1 hd) (fun d1 => ?_)
  refine nlBack_sBind (nlBack_sLit _ (by decide)) (fun _ => ?_)
  refine nlBack_sBind (nlBack_sMunch1 hd) (fun d2 => ?_)
  refine nlBack_sBind (nlBack_sLit _ (by decide)) (fun _ => ?_)
  refine nlBack_sBind (nlBack_sMunch1 hd) (fun d3 => ?_)
  refine nlBack_sBind (nlBack_sLit _ (by decide)) (fun _ => ?_)
  refine nlBack_sBind (nlBack_sMunch1 hd) (fun d4 => ?_)
  exact nlBack_sPure _

theorem suffix_matchDotted : SuffixStage matchDotted := by
  unfold matchDotted
  refine suffix_sBind (suffix_sMunch1 _) (fun d1 => ?_)
  refine suffix_sBind (suffix_sLit _) (fun _ => ?_)
  refine suffix_sBind (suffix_sMunch1 _) (fun d2 => ?_)
  refine suffix_sBind (suffix_sLit _) (fun _ => ?_)
  refine suffix_sBind (suffix_sMunch1 _) (fun d3 => ?_)
  refine suffix_sBind (suffix_sLit _) (fun _ => ?_)
  refine suffix_sBind (suffix_sMunch1 _) (fun d4 => ?_)
  exact suffix_sPure _

theorem matchNull_eq_some {cs a r : Chars} :
    matchNull cs = some (a, r) ↔
      a = ['N', 'U', 'L', 'L'] ∧ cs = ['N', 'U', 'L', 'L'] ++ r ∧
        (r = [] ∨ ∃ c r2, r = c :: r2 ∧ isWordChar c = false) := by
  unfold matchNull
  cases he : expectLit ['N', 'U', 'L', 'L'] cs with
  | none =>
    constructor
    · intro h
      cases h
    · rintro ⟨rfl, rfl, -⟩
      rw [expectLit_complete] at he
      cases he
  | some r' =>
    have hs := expectLit_sound _ cs r' he
    subst hs
    cases r' with
    | nil =>
      constructor
      · intro h
        injection h with h'
        injection h' with h1 h2
        subst h1; subst h2
        exact ⟨rfl, by simp, Or.inl rfl⟩
      · rintro ⟨rfl, heq, -⟩
        have hr : ([] : Chars) = r := List.append_cancel_left heq
        rw [← hr]
    | cons c r2 =>
      constructor
      · intro h
        have h' : (if isWordChar c = true then none
            else some ((['N', 'U', 'L', 'L'] : Chars), c :: r2)) = some (a, r) := h
        by_cases hw : isWordChar c = true
        · rw [if_pos hw] at h'
          cases h'
        · rw [if_neg hw] at h'
          injection h' with h''
          injection h'' with h1 h2
          subst h1; subst h2
          exact ⟨rfl, rfl, Or.inr ⟨c, r2, rfl, by simpa using hw⟩⟩
      · rintro ⟨rfl, heq, hr⟩
        have hr' : c :: r2 = r := List.append_cancel_left heq
        subst hr'
        show (if isWordChar c = true then none
            else some ((['N', 'U', 'L', 'L'] : Chars), c :: r2)) = _
        rcases hr with h | ⟨c', r2', heq', hw⟩
        · cases h
        · injection heq' with e1 e2
          subst e1
          rw [if_neg (by simp [hw])]

theorem matchNull_head {cs a r : Chars} (h : matchNull cs = some (a, r)) :
    ∃ t, cs = 'N' :: t := by
  rw [matchNull_eq_some] at h
  exact ⟨'U' :: 'L' :: 'L' :: r, h.2.1⟩

theorem nlExt_matchNull : NlExt matchNull := by
  intro cs a r h
  rw [matchNull_eq_some] at h
  obtain ⟨rfl, rfl, hr⟩ := h
  rw [matchNull_eq_some]
  refine ⟨rfl, by rw [List.append_assoc], ?_⟩
  rcases hr with rfl | ⟨c, r2, rfl, hw⟩
  · exact Or.inr ⟨'\n', [], rfl, by decide⟩
  · exact Or.inr ⟨c, r2 ++ ['\n'], rfl, hw⟩

theorem nlBack_matchNull : NlBack matchNull := by
  intro cs a r h
  rw [matchNull_eq_some] at h
  obtain ⟨rfl, heq, hr⟩ := h
  rcases List.eq_nil_or_concat r with rfl | ⟨r0, x, rfl⟩
  · exfalso
    have hmem : '\n' ∈ cs ++ ['\n'] := by simp
    rw [heq] at hmem
    rw [List.append_nil] at hmem
    exact absurd hmem (by decide)
  · rw [List.concat_eq_append, ← List.append_assoc] at heq
    have h2 := List.append_inj' heq rfl
    have hx : '\n' = x := by
      have := h2.2
      injection this
    subst hx
    refine ⟨r0, by simp [List.concat_eq_append], ?_⟩
    rw [matchNull_eq_some]
    refine ⟨rfl, h2.1, ?_⟩
    rcases hr with habs | ⟨c, r2, hceq, hw⟩
    · rw [List.concat_eq_append] at habs
      exact absurd habs (by simp)
    · rw [List.concat_eq_append] at hceq
      rcases r0 with _ | ⟨d, r3⟩
      · exact Or.inl rfl
      · have hceq' : d :: (r3 ++ ['\n']) = c :: r2 := hceq
        injection hceq' with e1 e2
        subst e1
        exact Or.inr ⟨d, r3, rfl, hw⟩

theorem suffix_matchNull : SuffixStage matchNull := by
  intro cs a r h
  rw [matchNull_eq_some] at h
  exact ⟨['N', 'U', 'L', 'L'], h.2.1⟩

theorem nlExt_matchIp : NlExt matchIp := by
  intro cs a r h
  unfold matchIp at h ⊢
  cases hdod : matchDotted cs with
  | some v =>
    obtain ⟨a', r'⟩ := v
    rw [hdod] at h
    have h' : some ((a', r') : Chars × Chars) = some (a, r) := h
    injection h' with h''
    injection h'' with h1 h2
    subst h1; subst h2
    rw [nlExt_matchDotted cs a' r' hdod]
  | none =>
    rw [hdod] at h
    have h' : matchNull cs = some (a, r) := h
    obtain ⟨t, rfl⟩ := matchNull_head h'
    rw [List.cons_append, matchDotted_cons_neg (by decide)]
    exact nlExt_matchNull _ a r h'

theorem nlBack_matchIp : NlBack matchIp := by
  intro cs a r h
  unfold matchIp at h
  cases hdod : matchDotted (cs ++ ['\n']) with
  | some v =>
    obtain ⟨a', r'⟩ := v
    rw [hdod] at h
    have h' : some ((a', r') : Chars × Chars) = some (a, r) := h
    injection h' with h''
    injection h'' with h1 h2
    subst h1; subst h2
    obtain ⟨r0, rfl, hback⟩ := nlBack_matchDotted cs a' r' hdod
    refine ⟨r0, rfl, ?_⟩
    unfold matchIp
    rw [hback]
  | none =>
    rw [hdod] at h
    have h' : matchNull (cs ++ ['\n']) = some (a, r) := h
    obtain ⟨r0, rfl, hback⟩ := nlBack_matchNull cs a r h'
    obtain ⟨t, rfl⟩ := matchNull_head hback
    refine ⟨r0, rfl, ?_⟩
    unfold matchIp
    rw [matchDotted_cons_neg (by decide)]
    exact hback

theorem suffix_matchIp : SuffixStage matchIp := by
  intro cs a r h
  unfold matchIp at h
  cases hdod : matchDotted cs with
  | some v =>
    obtain ⟨a', r'⟩ := v
    rw [hdod] at h
    have h' : some ((a', r') : Chars × Chars) = some (a, r) := h
    injection h' with h''
    injection h'' with h1 h2
    subst h1; subst h2
    exact suffix_matchDotted cs a' r' hdod
  | none =>
    rw [hdod] at h
    have h' : matchNull cs = some (a, r) := h
    exact suffix_matchNull cs a r h'

theorem nlExt_matchRaw : NlExt matchRaw := by
  unfold matchRaw
  refine nlExt_sBind nlExt_matchIp (fun ip => ?_)
  refine nlExt_sBind (nlExt_sLit _) (fun _ => ?_)
  refine nlExt_sBind nlExt_munchThen (fun ts => ?_)
  refine nlExt_sBind (nlExt_sLit _) (fun _ => ?_)
  refine nlExt_sBind (nlExt_sMunch1 (by decide)) (fun m => ?_)
  refine nlExt_sBind (nlExt_sLit _) (fun _ => ?_)
  refine nlExt_sBind (nlExt_sMunch1 (by decide)) (fun u => ?_)
  refine nlExt_sBind (nlExt_sLit _) (fun _ => ?_)
  refine nlExt_sBind nlExt_munchThen (fun v => ?_)
  refine nlExt_sBind (nlExt_sLit _) (fun _ => ?_)
  refine nlExt_sBind nlExt_sDigits3 (fun st => ?_)
  refine nlExt_sBind (nlExt_sLit _) (fun _ => ?_)
  refine nlExt_sBind nlExt_sSize (fun sz => ?_)
  exact nlExt_sPure _

theorem nlBack_matchRaw : NlBack matchRaw := by
  unfold matchRaw
  refine nlBack_sBind nlBack_matchIp (fun ip => ?_)
  refine nlBack_sBind (nlBack_sLit _ (by decide)) (fun _ => ?_)
  refine nlBack_sBind (nlBack_munchThen (by decide)) (fun ts => ?_)
  refine nlBack_sBind (nlBack_sLit _ (by decide)) (fun _ => ?_)
  refine nlBack_sBind (nlBack_sMunch1 (by decide)) (fun m => ?_)
  refine nlBack_sBind (nlBack_sLit _ (by decide)) (fun _ => ?_)
  refine nlBack_sBind (nlBack_sMunch1 (by decide)) (fun u => ?_)
  refine nlBack_sBind (nlBack_sLit _ (by decide)) (fun _ => ?_)
  refine nlBack_sBind (nlBack_munchThen (by decide)) (fun v => ?_)
  refine nlBack_sBind (nlBack_sLit _ (by decide)) (fun _ => ?_)
  refine nlBack_sBind nlBack_sDigits3 (fun st => ?_)
  refine nlBack_sBind (nlBack_sLit _ (by decide)) (fun _ => ?_)
  refine nlBack_sBind nlBack_sSize (fun sz => ?_)
  exact nlBack_sPure _

theorem suffix_matchRaw : SuffixStage matchRaw := by
  unfold matchRaw
  refine suffix_sBind suffix_matchIp (fun ip => ?_)
  refine suffix_sBind (suffix_sLit _) (fun _ => ?_)
  refine suffix_sBind (suffix_munchThen _ _) (fun ts => ?_)
  refine suffix_sBind (suffix_sLit _) (fun _ => ?_)
  refine suffix_sBind (suffix_sMunch1 _) (fun m => ?_)
  refine suffix_sBind (suffix_sLit _) (fun _ => ?_)
  refine suffix_sBind (suffix_sMunch1 _) (fun u => ?_)
  refine suffix_sBind (suffix_sLit _) (fun _ => ?_)
  refine suffix_sBind (suffix_munchThen _ _) (fun v => ?_)
  refine suffix_sBind (suffix_sLit _) (fun _ => ?_)
  refine suffix_sBind suffix_sDigits3 (fun st => ?_)
  refine suffix_sBind (suffix_sLit _) (fun _ => ?_)
  refine suffix_sBind suffix_sSize (fun sz => ?_)
  exact suffix_sPure _

/-- The effect of appending one newline to a line that does not already end
in a newline: the regex match (with its `$` anchor) is unchanged. -/
theorem matchLogPattern_append_nl {cs : Chars} (h : cs.getLast? ≠ some '\n') :
    matchLogPattern (cs ++ ['\n']) = matchLogPattern cs := by
  unfold matchLogPattern
  cases hm : matchRaw cs with
  | some p =>
    obtain ⟨g, r⟩ := p
    rw [nlExt_matchRaw cs g r hm]
    show (if (r ++ ['\n'] = [] ∨ r ++ ['\n'] = ['\n']) then some g else none) =
      (if (r = [] ∨ r = ['\n']) then some g else none)
    by_cases hr : r = []
    · subst hr
      simp
    · by_cases hr1 : r = ['\n']
      · exfalso
        subst hr1
        obtain ⟨t, rfl⟩ := suffix_matchRaw cs g _ hm
        exact h (by simp)
      · rw [if_neg, if_neg]
        · rintro (hc | hc)
          · exact hr hc
          · exact hr1 hc
        · rintro (hc | hc)
          · exact hr (by simpa using congrArg List.length hc)
          · refine hr ?_
            have hlen := congrArg List.length hc
            simp at hlen
            exact hlen
  | none =>
    cases hm2 : matchRaw (cs ++ ['\n']) with
    | none => rfl
    | some p =>
      obtain ⟨g, r⟩ := p
      obtain ⟨r0, _, hback⟩ := nlBack_matchRaw cs g r hm2
      rw [hback] at hm
      cases hm

/-! ## Inversion lemmas for the regex match -/

theorem matchLogPattern_inv {cs : Chars} {g : LogGroups}
    (h : matchLogPattern cs = some g) :
    ∃ rest, matchRaw cs = some (g, rest) ∧ (rest = [] ∨ rest = ['\n']) := by
  unfold matchLogPattern at h
  cases hm : matchRaw cs with
  | none =>
    rw [hm] at h
    cases h
  | some p =>
    obtain ⟨g', rest⟩ := p
    rw [hm] at h
    have h' : (if rest = [] ∨ rest = ['\n'] then some g' else none) = some g := h
    split at h'
    · next hc =>
      injection h' with h''
      subst h''
      exact ⟨rest, rfl, hc⟩
    · cases h'

theorem matchRaw_inv {cs : Chars} {g : LogGroups} {rest : Chars}
    (h : matchRaw cs = some (g, rest)) :
    (∃ rIp, matchIp cs = some (g.ip, rIp)) ∧
    (∃ rSt rSt2, sDigits3 rSt = some (g.status, rSt2)) ∧
    (∃ rSz, sSize rSz = some (g.size, rest)) := by
  unfold matchRaw at h
  rw [sBind_eq_some] at h
  obtain ⟨ip, r1, hip, h⟩ := h
  rw [sBind_eq_some] at h
  obtain ⟨-, r2, -, h⟩ := h
  rw [sBind_eq_some] at h
  obtain ⟨ts, r3, -, h⟩ := h
  rw [sBind_eq_some] at h
  obtain ⟨-, r4, -, h⟩ := h
  rw [sBind_eq_some] at h
  obtain ⟨m, r5, -, h⟩ := h
  rw [sBind_eq_some] at h
  obtain ⟨-, r6, -, h⟩ := h
  rw [sBind_eq_some] at h
  obtain ⟨u, r7, -, h⟩ := h
  rw [sBind_eq_some] at h
  obtain ⟨-, r8, -, h⟩ := h
  rw [sBind_eq_some] at h
  obtain ⟨v, r9, -, h⟩ := h
  rw [sBind_eq_some] at h
  obtain ⟨-, r10, -, h⟩ := h
  rw [sBind_eq_some] at h
  obtain ⟨st, r11, hst, h⟩ := h
  rw [sBind_eq_some] at h
  obtain ⟨-, r12, -, h⟩ := h
  rw [sBind_eq_some] at h
  obtain ⟨sz, r13, hsz, h⟩ := h
  simp only [sPure, Option.some.injEq, Prod.mk.injEq] at h
  obtain ⟨hg, hrest⟩ := h
  subst hg
  subst hrest
  exact ⟨⟨r1, hip⟩, ⟨r10, r11, hst⟩, ⟨r12, hsz⟩⟩

theorem matchDotted_inv {cs ip r : Chars} (h : matchDotted cs = some (ip, r)) :
    ∃ d1 d2 d3 d4 : Chars,
      ip = d1 ++ '.' :: d2 ++ '.' :: d3 ++ '.' :: d4 ∧
      (d1 ≠ [] ∧ ∀ c ∈ d1, isDigitChar c) ∧ (d2 ≠ [] ∧ ∀ c ∈ d2, isDigitChar c) ∧
      (d3 ≠ [] ∧ ∀ c ∈ d3, isDigitChar c) ∧ (d4 ≠ [] ∧ ∀ c ∈ d4, isDigitChar c) := by
  unfold matchDotted at h
  rw [sBind_eq_some] at h
  obtain ⟨d1, s1, h1, h⟩ := h
  rw [sBind_eq_some] at h
  obtain ⟨-, s2, -, h⟩ := h
  rw [sBind_eq_some] at h
  obtain ⟨d2, s3, h2, h⟩ := h
  rw [sBind_eq_some] at h
  obtain ⟨-, s4, -, h⟩ := h
  rw [sBind_eq_some] at h
  obtain ⟨d3, s5, h3, h⟩ := h
  rw [sBind_eq_some] at h
  obtain ⟨-, s6, -, h⟩ := h
  rw [sBind_eq_some] at h
  obtain ⟨d4, s7, h4, h⟩ := h
  simp only [sPure, Option.some.injEq, Prod.mk.injEq] at h
  obtain ⟨hg, -⟩ := h
  rw [sMunch1_eq_some] at h1 h2 h3 h4
  exact ⟨d1, d2, d3, d4, hg.symm,
    ⟨h1.1 ▸ h1.2.2, h1.1 ▸ spanP_fst_all _ _⟩,
    ⟨h2.1 ▸ h2.2.2, h2.1 ▸ spanP_fst_all _ _⟩,
    ⟨h3.1 ▸ h3.2.2, h3.1 ▸ spanP_fst_all _ _⟩,
    ⟨h4.1 ▸ h4.2.2, h4.1 ▸ spanP_fst_all _ _⟩⟩

theorem splitAll_no_sep {sep : Char} {a : Chars} (ha : ∀ c ∈ a, c ≠ sep) :
    splitAll sep a = [a] := by
  induction a with
  | nil => rfl
  | cons x a ih =>
    have hx : x ≠ sep := ha x (List.mem_cons_self x a)
    simp only [splitAll, if_neg hx]
    rw [ih (fun c hc => ha c (List.mem_cons_of_mem x hc))]

theorem splitAll_sep_cons {sep : Char} {a : Chars} (b : Chars) (ha : ∀ c ∈ a, c ≠ sep) :
    splitAll sep (a ++ sep :: b) = a :: splitAll sep b := by
  induction a with
  | nil => simp [splitAll]
  | cons x a ih =>
    have hx : x ≠ sep := ha x (List.mem_cons_self x a)
    rw [List.cons_append]
    simp only [splitAll, if_neg hx]
    rw [ih (fun c hc => ha c (List.mem_cons_of_mem x hc))]

theorem all_digit_ne {d : Chars} (hd : ∀ c ∈ d, isDigitChar c) (x : Char)
    (hx : isDigitChar x = false) : ∀ c ∈ d, c ≠ x := by
  intro c hc hcx
  subst hcx
  rw [hd c hc] at hx
  cases hx

theorem isDigitQuad_of_parts {d1 d2 d3 d4 : Chars}
    (h1 : d1 ≠ [] ∧ ∀ c ∈ d1, isDigitChar c) (h2 : d2 ≠ [] ∧ ∀ c ∈ d2, isDigitChar c)
    (h3 : d3 ≠ [] ∧ ∀ c ∈ d3, isDigitChar c) (h4 : d4 ≠ [] ∧ ∀ c ∈ d4, isDigitChar c) :
    isDigitQuad (d1 ++ '.' :: d2 ++ '.' :: d3 ++ '.' :: d4) = true := by
  unfold isDigitQuad
  have e1 : (d1 ++ '.' :: d2 ++ '.' :: d3 ++ '.' :: d4 : Chars) =
      d1 ++ '.' :: (d2 ++ '.' :: (d3 ++ '.' :: d4)) := by simp
  rw [e1, splitAll_sep_cons _ (all_digit_ne h1.2 '.' (by decide)),
    splitAll_sep_cons _ (all_digit_ne h2.2 '.' (by decide)),
    splitAll_sep_cons _ (all_digit_ne h3.2 '.' (by decide)),
    splitAll_no_sep (all_digit_ne h4.2 '.' (by decide))]
  rw [Bool.and_eq_true]
  have key : ∀ q : Chars, q ≠ [] → (∀ c ∈ q, isDigitChar c) →
      (!q.isEmpty && q.all isDigitChar) = true := by
    intro q hq hall
    rw [Bool.and_eq_true]
    constructor
    · cases q with
      | nil => exact absurd rfl hq
      | cons x xs => rfl
    · rw [List.all_eq_true]
      exact hall
  refine ⟨rfl, ?_⟩
  rw [List.all_eq_true]
  intro p hp
  rcases List.mem_cons.mp hp with rfl | hp
  · exact key p h1.1 h1.2
  rcases List.mem_cons.mp hp with rfl | hp
  · exact key p h2.1 h2.2
  rcases List.mem_cons.mp hp with rfl | hp
  · exact key p h3.1 h3.2
  rcases List.mem_cons.mp hp with rfl | hp
  · exact key p h4.1 h4.2
  · cases hp

theorem sSize_shape {cs sz r : Chars} (h : sSize cs = some (sz, r)) :
    (sz ≠ [] ∧ ∀ c ∈ sz, isDigitChar c) ∨ sz = ['-'] := by
  rw [sSize_eq_some] at h
  rcases h with h | ⟨-, rfl, -⟩
  · rw [sMunch1_eq_some] at h
    obtain ⟨rfl, -, hne⟩ := h
    exact Or.inl ⟨hne, spanP_fst_all _ cs⟩
  · exact Or.inr rfl

theorem sDigits3_shape {cs st r : Chars} (h : sDigits3 cs = some (st, r)) :
    st.length = 3 ∧ ∀ c ∈ st, isDigitChar c := by
  rw [sDigits3_eq_some] at h
  obtain ⟨c1, c2, c3, -, rfl, hd⟩ := h
  rw [Bool.and_eq_true, Bool.and_eq_true] at hd
  refine ⟨rfl, ?_⟩
  intro c hc
  rcases List.mem_cons.mp hc with rfl | hc
  · exact hd.1.1
  rcases List.mem_cons.mp hc with rfl | hc
  · exact hd.1.2
  rcases List.mem_cons.mp hc with rfl | hc
  · exact hd.2
  · cases hc

theorem matchIp_shape {cs ip r : Chars} (h : matchIp cs = some (ip, r)) :
    isDigitQuad ip = true ∨ ip = ['N', 'U', 'L', 'L'] := by
  unfold matchIp at h
  cases hdod : matchDotted cs with
  | some v =>
    obtain ⟨a', r'⟩ := v
    rw [hdod] at h
    have h' : some ((a', r') : Chars × Chars) = some (ip, r) := h
    injection h' with h''
    injection h'' with h1 h2
    subst h1
    obtain ⟨d1, d2, d3, d4, rfl, k1, k2, k3, k4⟩ := matchDotted_inv hdod
    exact Or.inl (isDigitQuad_of_parts k1 k2 k3 k4)
  | none =>
    rw [hdod] at h
    have h' : matchNull cs = some (ip, r) := h
    rw [matchNull_eq_some] at h'
    exact Or.inr h'.1

/-! ## Inversion lemmas for `parse_log_line` -/

theorem parseLogLine_of_nomatch {l : String} (h : matchLogPattern l.data = none) :
    parseLogLine l = .ok none := by
  unfold parseLogLine parseLogLineCore
  rw [h]

theorem parseLogLine_ok_none_nomatch {l : String} (h : parseLogLine l = .ok none) :
    matchLogPattern l.data = none := by
  unfold parseLogLine parseLogLineCore at h
  cases hm : matchLogPattern l.data with
  | none => rfl
  | some g =>
    rw [hm] at h
    have h' : parseMatched g = .ok none := h
    unfold parseMatched at h'
    cases hu : urlparsePathQuery g.url with
    | error e => rw [hu] at h'; cases h'
    | ok pq =>
      rw [hu] at h'
      have h'' : (Except.ok (some (mkLogDict g pq)) : Except String (Option LogDict)) = .ok none := h'
      injection h'' with h3
      cases h3

theorem parseLogLine_ok_some_inv {l : String} {d : LogDict}
    (h : parseLogLine l = .ok (some d)) :
    ∃ g, matchLogPattern l.data = some g ∧
      d.ip.data = g.ip ∧ d.timestamp.data = g.timestamp ∧ d.method.data = g.method ∧
      d.status.data = g.status ∧ d.size.data = g.size := by
  unfold parseLogLine parseLogLineCore at h
  cases hm : matchLogPattern l.data with
  | none =>
    rw [hm] at h
    cases h
  | some g =>
    rw [hm] at h
    have h' : parseMatched g = .ok (some d) := h
    unfold parseMatched at h'
    cases hu : urlparsePathQuery g.url with
    | error e => rw [hu] at h'; cases h'
    | ok pq =>
      rw [hu] at h'
      have h'' : (Except.ok (some (mkLogDict g pq)) : Except String (Option LogDict)) = .ok (some d) := h'
      injection h'' with h3
      injection h3 with h4
      subst h4
      exact ⟨g, rfl, rfl, rfl, rfl, rfl, rfl⟩

/-- Field shapes guaranteed by the grammar for every dict the parser returns:
the client address is a dotted digit quad or `NULL`, the status is exactly
three digits, and the size is a nonempty digit run or `-`. -/
theorem parseLogLine_shape {l : String} {d : LogDict}
    (h : parseLogLine l = .ok (some d)) :
    (isDigitQuad d.ip.data = true ∨ d.ip.data = ['N', 'U', 'L', 'L']) ∧
    (d.ip.data.length = 3 → True) ∧
    d.status.data.length = 3 ∧ (∀ c ∈ d.status.data, isDigitChar c) ∧
    (d.size.data = ['-'] ∨ (d.size.data ≠ [] ∧ ∀ c ∈ d.size.data, isDigitChar c)) := by
  obtain ⟨g, hm, hip, -, -, hst, hsz⟩ := parseLogLine_ok_some_inv h
  obtain ⟨rest, hraw, -⟩ := matchLogPattern_inv hm
  obtain ⟨⟨rIp, hipm⟩, ⟨rSt, rSt2, hstm⟩, ⟨rSz, hszm⟩⟩ := matchRaw_inv hraw
  refine ⟨?_, fun _ => trivial, ?_, ?_, ?_⟩
  · rw [hip]
    exact matchIp_shape hipm
  · rw [hst]
    exact (sDigits3_shape hstm).1
  · rw [hst]
    exact (sDigits3_shape hstm).2
  · rw [hsz]
    rcases sSize_shape hszm with hd | hd
    · exact Or.inr hd
    · exact Or.inl hd

/-! ## Lemmas about the `urlparse` model -/

theorem splitOnFirst_none {sep : Char} {l : Chars} (h : ∀ c ∈ l, c ≠ sep) :
    splitOnFirst sep l = none := by
  induction l with
  | nil => rfl
  | cons c cs ih =>
    have hc : c ≠ sep := h c (List.mem_cons_self c cs)
    simp only [splitOnFirst, if_neg hc]
    rw [ih (fun x hx => h x (List.mem_cons_of_mem c hx))]

theorem splitOnFirst_sound {sep : Char} {l a b : Chars}
    (h : splitOnFirst sep l = some (a, b)) :
    l = a ++ sep :: b ∧ ∀ c ∈ a, c ≠ sep := by
  induction l generalizing a b with
  | nil => cases h
  | cons c cs ih =>
    by_cases hc : c = sep
    · subst hc
      simp only [splitOnFirst, if_pos rfl] at h
      injection h with h'
      injection h' with h1 h2
      subst h1
      subst h2
      exact ⟨rfl, by simp⟩
    · simp only [splitOnFirst, if_neg hc] at h
      cases hs : splitOnFirst sep cs with
      | none => rw [hs] at h; cases h
      | some p =>
        obtain ⟨a', b'⟩ := p
        rw [hs] at h
        injection h with h'
        injection h' with h1 h2
        subst h1
        subst h2
        obtain ⟨ha, hmem⟩ := ih hs
        refine ⟨by rw [List.cons_append, ha], ?_⟩
        intro x hx
        rcases List.mem_cons.mp hx with rfl | hx'
        · exact hc
        · exact hmem x hx'

theorem dropScheme_no_colon {url : Chars} (h : ∀ c ∈ url, c ≠ ':') :
    dropScheme url = url := by
  unfold dropScheme
  rw [splitOnFirst_none h]

theorem dropNetloc_not_slash {url : Chars} (h : url.take 2 ≠ ['/', '/']) :
    dropNetloc url = .ok url := by
  unfold dropNetloc
  rw [if_neg h]

theorem urlsplitPathQuery_plain {url : Chars}
    (hok : ∀ c ∈ url, c ≠ '#' ∧ c ≠ ':' ∧ isC0OrSpace c = false)
    (hnet : url.take 2 ≠ ['/', '/']) :
    urlsplitPathQuery url = .ok (specSplitTarget url) := by
  have h1 : url.dropWhile isC0OrSpace = url := by
    cases url with
    | nil => rfl
    | cons c cs =>
      rw [List.dropWhile_cons_of_neg]
      simp [(hok c (List.mem_cons_self c cs)).2.2]
  have h2 : url.filter (fun c => c ≠ '\t' && c ≠ '\r' && c ≠ '\n') = url := by
    rw [List.filter_eq_self]
    intro a ha
    have hC0 := (hok a ha).2.2
    have ht : a ≠ '\t' := by
      intro hh
      rw [hh] at hC0
      exact absurd hC0 (by decide)
    have hr : a ≠ '\r' := by
      intro hh
      rw [hh] at hC0
      exact absurd hC0 (by decide)
    have hn : a ≠ '\n' := by
      intro hh
      rw [hh] at hC0
      exact absurd hC0 (by decide)
    simp [ht, hr, hn]
  unfold urlsplitPathQuery
  rw [h1, h2, dropScheme_no_colon (fun c hc => (hok c hc).2.1),
    dropNetloc_not_slash hnet]
  show splitQuery (dropFragment url) = .ok (specSplitTarget url)
  unfold dropFragment
  rw [splitOnFirst_none (fun c hc => (hok c hc).1)]
  unfold splitQuery specSplitTarget
  cases hq : splitOnFirst '?' url with
  | none => rfl
  | some p => rfl

theorem urlparsePathQuery_plain {url : Chars}
    (hok : ∀ c ∈ url, c ≠ '#' ∧ c ≠ ':' ∧ c ≠ ';' ∧ isC0OrSpace c = false)
    (hnet : url.take 2 ≠ ['/', '/']) :
    urlparsePathQuery url = .ok (specSplitTarget url) := by
  unfold urlparsePathQuery
  rw [urlsplitPathQuery_plain (fun c hc => ⟨(hok c hc).1, (hok c hc).2.1, (hok c hc).2.2.2⟩)
    hnet]
  have hfst : ∀ c ∈ (specSplitTarget url).1, c ∈ url := by
    unfold specSplitTarget
    cases hq : splitOnFirst '?' url with
    | none => exact fun c hc => hc
    | some p =>
      obtain ⟨a, b⟩ := p
      intro c hc
      rw [(splitOnFirst_sound hq).1]
      exact List.mem_append_left _ hc
  have hcon : (specSplitTarget url).1.contains ';' = false := by
    by_contra hcon'
    rw [Bool.not_eq_false] at hcon'
    have hmem : ';' ∈ (specSplitTarget url).1 := by
      rw [← List.elem_iff]
      exact hcon'
    exact (hok ';' (hfst ';' hmem)).2.2.1 rfl
  show (Except.ok
      (if (specSplitTarget url).1.contains ';' then splitParamsPath (specSplitTarget url).1
        else (specSplitTarget url).1, (specSplitTarget url).2) :
      Except String (Chars × Chars)) = .ok (specSplitTarget url)
  rw [hcon]
  simp

/-! ## Lemmas about the reader and the coercion pipeline -/

theorem readLogFile_cons (l : String) (ls : List String) :
    readLogFile (l :: ls) =
      match parseLogLine l with
      | .error e => .error e
      | .ok r =>
        match readLogFile ls with
        | .error e => .error e
        | .ok rest =>
          match r with
          | some d => .ok (d :: rest)
          | none => .ok rest := rfl

theorem readLogFile_mem {ls : List String} {rs : List LogDict}
    (h : readLogFile ls = .ok rs) :
    ∀ r ∈ rs, ∃ l ∈ ls, parseLogLine l = .ok (some r) := by
  induction ls generalizing rs with
  | nil =>
    injection h with h'
    subst h'
    intro r hr
    cases hr
  | cons l ls ih =>
    rw [readLogFile_cons] at h
    cases hp : parseLogLine l with
    | error e => rw [hp] at h; cases h
    | ok r0 =>
      rw [hp] at h
      cases hr : readLogFile ls with
      | error e => rw [hr] at h; cases h
      | ok rest =>
        rw [hr] at h
        cases r0 with
        | some d =>
          injection h with h'
          subst h'
          intro r hrmem
          rcases List.mem_cons.mp hrmem with rfl | hrmem'
          · exact ⟨l, List.mem_cons_self l ls, hp⟩
          · obtain ⟨l', hl', hpl'⟩ := ih hr r hrmem'
            exact ⟨l', List.mem_cons_of_mem l hl', hpl'⟩
        | none =>
          injection h with h'
          subst h'
          intro r hrmem
          obtain ⟨l', hl', hpl'⟩ := ih hr r hrmem
          exact ⟨l', List.mem_cons_of_mem l hl', hpl'⟩

theorem lineMatches_of_ok_some {l : String} {d : LogDict}
    (h : parseLogLine l = .ok (some d)) : lineMatches l = true := by
  obtain ⟨g, hm, -⟩ := parseLogLine_ok_some_inv h
  unfold lineMatches
  rw [hm]
  rfl

theorem lineMatches_of_ok_none {l : String} (h : parseLogLine l = .ok none) :
    lineMatches l = false := by
  unfold lineMatches
  rw [parseLogLine_ok_none_nomatch h]
  rfl

theorem readLogFile_rows {ls : List String} {rs : List LogDict}
    (h : readLogFile ls = .ok rs) :
    rs.length = (ls.filter lineMatches).length ∧
    (∀ i, rs.get? i = ((ls.filter lineMatches).get? i).bind lineRecord) ∧
    (∀ l ∈ ls, lineMatches l = true → ∃ d, lineRecord l = some d) := by
  induction ls generalizing rs with
  | nil =>
    injection h with h'
    subst h'
    refine ⟨rfl, fun i => by simp, fun l hl => absurd hl (by simp)⟩
  | cons l ls ih =>
    rw [readLogFile_cons] at h
    cases hp : parseLogLine l with
    | error e => rw [hp] at h; cases h
    | ok r0 =>
      rw [hp] at h
      cases hr : readLogFile ls with
      | error e => rw [hr] at h; cases h
      | ok rest =>
        rw [hr] at h
        obtain ⟨hlen, hget, hall⟩ := ih hr
        cases r0 with
        | some d =>
          injection h with h'
          subst h'
          have hm : lineMatches l = true := lineMatches_of_ok_some hp
          have hrec : lineRecord l = some d := by
            unfold lineRecord
            rw [hp]
          rw [List.filter_cons_of_pos hm]
          refine ⟨by simpa using hlen, fun i => ?_, fun x hx hmx => ?_⟩
          · cases i with
            | zero => simp [hrec]
            | succ n => simpa using hget n
          · rcases List.mem_cons.mp hx with rfl | hx'
            · exact ⟨d, hrec⟩
            · exact hall x hx' hmx
        | none =>
          injection h with h'
          subst h'
          have hm : lineMatches l = false := lineMatches_of_ok_none hp
          rw [List.filter_cons_of_neg (by simp [hm])]
          refine ⟨hlen, hget, fun x hx hmx => ?_⟩
          rcases List.mem_cons.mp hx with rfl | hx'
          · rw [hm] at hmx
            cases hmx
          · exact hall x hx' hmx

theorem readLogFile_skip {l : String} (hl : parseLogLine l = .ok none)
    (pre post : List String) :
    readLogFile (pre ++ l :: post) = readLogFile (pre ++ post) := by
  induction pre with
  | nil =>
    rw [List.nil_append, List.nil_append, readLogFile_cons, hl]
    cases h : readLogFile post with
    | error e => rfl
    | ok rest => rfl
  | cons p pre ih =>
    rw [List.cons_append, List.cons_append, readLogFile_cons, readLogFile_cons, ih]

theorem coerceTimestamps_cons (r : LogDict) (rs : List LogDict) :
    coerceTimestamps (r :: rs) =
      match parseTimestampStr r.timestamp with
      | none => .error "time data does not match format"
      | some m =>
        match coerceTimestamps rs with
        | .error e => .error e
        | .ok ms => .ok (m :: ms) := rfl

theorem coerceTimestamps_ok {rs : List LogDict} {ms : List Moment}
    (h : coerceTimestamps rs = .ok ms) :
    ms.length = rs.length ∧
    ∀ i r, rs.get? i = some r →
      ∃ m, ms.get? i = some m ∧ parseTimestampStr r.timestamp = some m := by
  induction rs generalizing ms with
  | nil =>
    injection h with h'
    subst h'
    exact ⟨rfl, fun i r hr => absurd hr (by simp)⟩
  | cons r rs ih =>
    rw [coerceTimestamps_cons] at h
    cases hp : parseTimestampStr r.timestamp with
    | none => rw [hp] at h; cases h
    | some m =>
      rw [hp] at h
      cases hc : coerceTimestamps rs with
      | error e => rw [hc] at h; cases h
      | ok ms' =>
        rw [hc] at h
        injection h with h'
        subst h'
        obtain ⟨hlen, hget⟩ := ih hc
        refine ⟨by simpa using hlen, fun i x hx => ?_⟩
        cases i with
        | zero =>
          injection hx with hx'
          subst hx'
          exact ⟨m, rfl, hp⟩
        | succ n => exact hget n x (by simpa using hx)

theorem coerceTimestamps_error {rs : List LogDict}
    (h : ∃ r ∈ rs, parseTimestampStr r.timestamp = none) :
    ∃ e, coerceTimestamps rs = .error e := by
  induction rs with
  | nil =>
    obtain ⟨r, hr, -⟩ := h
    cases hr
  | cons r rs ih =>
    obtain ⟨x, hx, hxp⟩ := h
    rw [coerceTimestamps_cons]
    rcases List.mem_cons.mp hx with rfl | hx'
    · rw [hxp]
      exact ⟨"time data does not match format", rfl⟩
    · cases hp : parseTimestampStr r.timestamp with
      | none => exact ⟨"time data does not match format", rfl⟩
      | some m =>
        obtain ⟨e, he⟩ := ih ⟨x, hx', hxp⟩
        rw [he]
        exact ⟨e, rfl⟩

theorem coerceTimestamps_total {rs : List LogDict}
    (h : ∀ r ∈ rs, (parseTimestampStr r.timestamp).isSome = true) :
    ∃ ms, coerceTimestamps rs = .ok ms := by
  induction rs with
  | nil => exact ⟨[], rfl⟩
  | cons r rs ih =>
    rw [coerceTimestamps_cons]
    cases hp : parseTimestampStr r.timestamp with
    | none =>
      have := h r (List.mem_cons_self r rs)
      rw [hp] at this
      cases this
    | some m =>
      obtain ⟨ms, hms⟩ := ih (fun x hx => h x (List.mem_cons_of_mem r hx))
      rw [hms]
      exact ⟨m :: ms, rfl⟩

theorem coerceSizes_cons (r : LogDict) (rs : List LogDict) :
    coerceSizes (r :: rs) =
      match coerceSizeOpt r.size with
      | .error e => .error e
      | .ok n =>
        match coerceSizes rs with
        | .error e => .error e
        | .ok ns => .ok (n :: ns) := rfl

theorem coerceSizes_ok {rs : List LogDict} {ns : List (Option Nat)}
    (h : coerceSizes rs = .ok ns) :
    ns.length = rs.length ∧
    ∀ i r, rs.get? i = some r →
      ∃ n, ns.get? i = some n ∧ coerceSizeOpt r.size = .ok n := by
  induction rs generalizing ns with
  | nil =>
    injection h with h'
    subst h'
    exact ⟨rfl, fun i r hr => absurd hr (by simp)⟩
  | cons r rs ih =>
    rw [coerceSizes_cons] at h
    cases hp : coerceSizeOpt r.size with
    | error e => rw [hp] at h; cases h
    | ok n =>
      rw [hp] at h
      cases hc : coerceSizes rs with
      | error e => rw [hc] at h; cases h
      | ok ns' =>
        rw [hc] at h
        injection h with h'
        subst h'
        obtain ⟨hlen, hget⟩ := ih hc
        refine ⟨by simpa using hlen, fun i x hx => ?_⟩
        cases i with
        | zero =>
          injection hx with hx'
          subst hx'
          exact ⟨n, rfl, hp⟩
        | succ k => exact hget k x (by simpa using hx)

theorem coerceSizes_total {rs : List LogDict}
    (h : ∀ r ∈ rs, ∃ n, coerceSizeOpt r.size = .ok n) :
    ∃ ns, coerceSizes rs = .ok ns := by
  induction rs with
  | nil => exact ⟨[], rfl⟩
  | cons r rs ih =>
    rw [coerceSizes_cons]
    obtain ⟨n, hn⟩ := h r (List.mem_cons_self r rs)
    rw [hn]
    obtain ⟨ns, hns⟩ := ih (fun x hx => h x (List.mem_cons_of_mem r hx))
    rw [hns]
    exact ⟨n :: ns, rfl⟩

theorem buildRows_get {rs : List LogDict} {ms : List Moment} {ns : List (Option Nat)} :
    (ms.length = rs.length → ns.length = rs.length →
      (buildRows rs ms ns).length = rs.length) ∧
    (∀ i r m n, rs.get? i = some r → ms.get? i = some m → ns.get? i = some n →
      (buildRows rs ms ns).get? i = some
        { ip := r.ip, timestamp := m, method := r.method, url := r.url,
          status := r.status, size := n.getD 0, query_parameters := r.query_parameters }) := by
  induction rs generalizing ms ns with
  | nil =>
    refine ⟨fun _ _ => ?_, fun i r m n hr _ _ => absurd hr (by simp)⟩
    cases ms with
    | nil => rfl
    | cons m ms => cases ns <;> rfl
  | cons r rs ih =>
    refine ⟨fun hm hn => ?_, fun i x m n hx hm hn => ?_⟩
    · cases ms with
      | nil => cases hm
      | cons m ms =>
        cases ns with
        | nil => cases hn
        | cons n ns =>
          show (buildRows (r :: rs) (m :: ms) (n :: ns)).length = rs.length + 1
          have hm' : ms.length = rs.length := by simpa using hm
          have hn' : ns.length = rs.length := by simpa using hn
          simp [buildRows, (ih.1 hm' hn')]
    · cases ms with
      | nil => cases hm
      | cons m0 ms =>
        cases ns with
        | nil => cases hn
        | cons n0 ns =>
          cases i with
          | zero =>
            injection hx with hx'
            injection hm with hm'
            injection hn with hn'
            subst hx'; subst hm'; subst hn'
            rfl
          | succ k =>
            have := ih.2 k x m n (by simpa using hx) (by simpa using hm) (by simpa using hn)
            simpa [buildRows] using this

theorem pipeline_ok_inv {rs : List LogDict} {rows : List Row}
    (h : pipeline rs = .ok rows) :
    ∃ ms ns, coerceTimestamps rs = .ok ms ∧ coerceSizes rs = .ok ns ∧
      rows = buildRows rs ms ns := by
  unfold pipeline at h
  cases hts : coerceTimestamps rs with
  | error e => rw [hts] at h; cases h
  | ok ms =>
    rw [hts] at h
    cases hss : coerceSizes rs with
    | error e => rw [hss] at h; cases h
    | ok ns =>
      rw [hss] at h
      injection h with h'
      exact ⟨ms, ns, rfl, rfl, h'.symm⟩

/-- Every size field the reader produces coerces without error, to `none`
exactly on the `-` marker. -/
theorem readLogFile_sizeOk {ls : List String} {rs : List LogDict}
    (h : readLogFile ls = .ok rs) :
    ∀ r ∈ rs, coerceSizeOpt r.size =
      .ok (if r.size = "-" then none else some (digitsToNat r.size.data)) := by
  intro r hr
  obtain ⟨l, -, hpl⟩ := readLogFile_mem h r hr
  obtain ⟨-, -, -, -, hsz⟩ := parseLogLine_shape hpl
  rcases hsz with hdash | ⟨hne, hdig⟩
  · have hstr : r.size = "-" := strExt hdash
    unfold coerceSizeOpt
    rw [if_pos hdash, if_pos hstr]
  · have hnd : r.size.data ≠ ['-'] := by
      intro hc
      have : isDigitChar '-' = true := hdig '-' (by rw [hc]; exact List.mem_singleton.mpr rfl)
      exact absurd this (by decide)
    have hstr : ¬(r.size = "-") := fun hc => hnd (by rw [hc])
    unfold coerceSizeOpt
    rw [if_neg hnd, if_neg hstr]
    rw [if_pos]
    rw [Bool.and_eq_true]
    constructor
    · cases hd : r.size.data with
      | nil => exact absurd hd hne
      | cons x xs => rfl
    · rw [List.all_eq_true]
      exact hdig

/-! ## Claim theorems -/

/-- C1 (amended).  The claim as written — for every grammar-matching line the
request target is split into path and query exactly at its first `?` — fails
because `urlparse` first strips fragments, scheme prefixes, netlocs and
`;params` (see the counterexample).  Amended: for every grammar-matching
line whose request target contains no `#`, `:` or `;`, no C0-control or
space characters, and does not begin with `//`, `parse_log_line` returns the
dict with all seven fields present, whose `url`/`query_parameters` pair is
exactly the split of the target at its first `?` (query empty when there is
no `?`). -/
theorem claim_C1_amended {s : String} {g : LogGroups}
    (hm : matchLogPattern s.data = some g)
    (hu : ∀ c ∈ g.url, c ≠ '#' ∧ c ≠ ':' ∧ c ≠ ';' ∧ isC0OrSpace c = false)
    (hnet : g.url.take 2 ≠ ['/', '/']) :
    parseLogLine s = .ok (some (mkLogDict g (specSplitTarget g.url))) := by
  unfold parseLogLine parseLogLineCore
  rw [hm]
  show parseMatched g = _
  unfold parseMatched
  rw [urlparsePathQuery_plain hu hnet]

/-- C1 (counterexample).  `fragLine` matches the grammar with request target
`/a?b#c`, but the returned record's path/query pair is `("/a", "b")`, not the
split of the target at its first `?` (which is `("/a", "b#c")`): `urlparse`
removes the fragment `#c` first. -/
theorem claim_C1_cex :
    matchLogPattern fragLine.data = some fragGroups ∧
    parseLogLine fragLine = .ok (some fragRec) ∧
    (fragRec.url.data, fragRec.query_parameters.data) ≠ specSplitTarget fragGroups.url :=
  ⟨rfl, rfl, by decide⟩

/-- C1 (witness): the amended theorem applied to the spec's own example
line, whose target `/index.html?id=42` satisfies the amended conditions. -/
theorem claim_C1_witness :
    matchLogPattern exLine.data = some exGroups ∧
    parseLogLine exLine = .ok (some (mkLogDict exGroups (specSplitTarget exGroups.url))) ∧
    mkLogDict exGroups (specSplitTarget exGroups.url) = exRec := by
  have hm : matchLogPattern exLine.data = some exGroups := rfl
  exact ⟨hm, claim_C1_amended hm (by decide) (by decide), rfl⟩

/-- C2.  A line the regex does not match makes `parse_log_line` return the
no-match signal `None` (`.ok none`: in particular no exception escapes and
no partial record is produced), and such a line contributes no row to the
collector's row set: deleting it from the input leaves the row set
unchanged. -/
theorem claim_C2 (l : String) (pre post : List String)
    (h : matchLogPattern l.data = none) :
    parseLogLine l = .ok none ∧
    readLogFile (pre ++ l :: post) = readLogFile (pre ++ post) := by
  have hp := parseLogLine_of_nomatch h
  exact ⟨hp, readLogFile_skip hp pre post⟩

/-- C2 (witness): applied to a line with a two-digit status code, inserted
between two well-formed lines; a line missing its closing quote is also
checked to be a no-match. -/
theorem claim_C2_witness :
    matchLogPattern shortStatusLine.data = none ∧
    parseLogLine shortStatusLine = .ok none ∧
    readLogFile ([exLine] ++ shortStatusLine :: [nullLine]) =
      readLogFile ([exLine] ++ [nullLine]) ∧
    matchLogPattern noQuoteLine.data = none := by
  have h1 : matchLogPattern shortStatusLine.data = none := rfl
  have hc := claim_C2 shortStatusLine [exLine] [nullLine] h1
  exact ⟨h1, hc.1, hc.2, rfl⟩

/-- C3.  The spec's concrete example: the well-formed line parses to exactly
the stated record (client address `203.0.113.5`, timestamp text coercing to
the moment 2023-10-10T13:55:36+00:00, method `GET`, path `/index.html`,
query `id=42`, status text of value 200, size text of value 512, and the
full pipeline yields that typed row), while the malformed line `- - -
[bad] "BAD" -` is a no-match and is excluded from the row set entirely. -/
theorem claim_C3 :
    parseLogLine exLine = .ok (some exRec) ∧
    parseTimestampStr exRec.timestamp = some exMoment ∧
    digitsToNat exRec.status.data = 200 ∧
    digitsToNat exRec.size.data = 512 ∧
    pipeline [exRec] = .ok [exRow] ∧
    parseLogLine malLine = .ok none ∧
    readLogFile [exLine, malLine] = .ok [exRec] :=
  ⟨rfl, rfl, rfl, rfl, rfl, rfl, rfl⟩

/-- C4.  Order preservation: when the collector succeeds, its row set has
exactly one row per grammar-matching input line, row `i` being the parsed
record of the `i`-th matching line in file order. -/
theorem claim_C4 {ls : List String} {rs : List LogDict}
    (h : readLogFile ls = .ok rs) :
    rs.length = (ls.filter lineMatches).length ∧
    (∀ i, rs.get? i = ((ls.filter lineMatches).get? i).bind lineRecord) ∧
    (∀ l ∈ ls, lineMatches l = true → ∃ d, lineRecord l = some d) :=
  readLogFile_rows h

/-- C4 (witness): a three-line file with a malformed middle line; rows 0 and
1 are the records of matching lines 0 and 2. -/
theorem claim_C4_witness :
    readLogFile [exLine, malLine, nullLine] = .ok [exRec, nullRec] ∧
    ([exRec, nullRec] : List LogDict).length =
      ([exLine, malLine, nullLine].filter lineMatches).length ∧
    ([exRec, nullRec] : List LogDict).get? 0 = some exRec ∧
    ([exRec, nullRec] : List LogDict).get? 1 = some nullRec := by
  have h : readLogFile [exLine, malLine, nullLine] = .ok [exRec, nullRec] := rfl
  have hc := claim_C4 h
  refine ⟨h, hc.1, ?_, ?_⟩
  · rw [hc.2.1 0]
    rfl
  · rw [hc.2.1 1]
    rfl

/-- C5.  In the final row set, a record whose size field is the `-` marker
gets size exactly 0 (never a missing value: the `fillna` step turns the NaN
into 0), and every size is the non-negative numeric value of the parsed
digit run. -/
theorem claim_C5 {ls : List String} {rs : List LogDict} {rows : List Row}
    (h : readLogFile ls = .ok rs) (hp : pipeline rs = .ok rows) :
    rows.length = rs.length ∧
    ∀ i r, rs.get? i = some r → ∃ row, rows.get? i = some row ∧
      row.size = (if r.size = "-" then 0 else digitsToNat r.size.data) ∧
      (r.size = "-" → row.size = 0) ∧ 0 ≤ row.size := by
  obtain ⟨ms, ns, hts, hss, rfl⟩ := pipeline_ok_inv hp
  obtain ⟨hlm, hgm⟩ := coerceTimestamps_ok hts
  obtain ⟨hln, hgn⟩ := coerceSizes_ok hss
  refine ⟨buildRows_get.1 hlm hln, fun i r hr => ?_⟩
  obtain ⟨m, hm, -⟩ := hgm i r hr
  obtain ⟨n, hn, hcs⟩ := hgn i r hr
  have hrow := buildRows_get.2 i r m n hr hm hn
  have hco := readLogFile_sizeOk h r (List.get?_mem hr)
  rw [hco] at hcs
  injection hcs with hcs'
  have hsize : n.getD 0 = (if r.size = "-" then 0 else digitsToNat r.size.data) := by
    rw [← hcs']
    by_cases hd : r.size = "-"
    · rw [if_pos hd, if_pos hd]
      rfl
    · rw [if_neg hd, if_neg hd]
      rfl
  exact ⟨_, hrow, hsize, fun hd => by rw [hsize, if_pos hd], Nat.zero_le _⟩

/-- C5 (witness): a `-` size (from `nullLine`) becomes 0 in the final row
set; a numeric size becomes its value. -/
theorem claim_C5_witness :
    readLogFile [nullLine, exLine] = .ok [nullRec, exRec] ∧
    pipeline [nullRec, exRec] = .ok [nullRow, exRow] ∧
    nullRec.size = "-" ∧
    (∃ row, ([nullRow, exRow] : List Row).get? 0 = some row ∧
      row.size = (if nullRec.size = "-" then 0 else digitsToNat nullRec.size.data) ∧
      (nullRec.size = "-" → row.size = 0) ∧ 0 ≤ row.size) := by
  have h : readLogFile [nullLine, exLine] = .ok [nullRec, exRec] := rfl
  have hp : pipeline [nullRec, exRec] = .ok [nullRow, exRow] := rfl
  exact ⟨h, hp, rfl, (claim_C5 h hp).2 0 nullRec rfl⟩

/-- C6.  Timestamp coercion is all-or-nothing: if any collected record's
timestamp text fails the `%d/%b/%Y:%H:%M:%S %z` layout, the whole pipeline
run is an error (no row set); if every one conforms, the pipeline succeeds
and gives each row the parsed timezone-aware moment.  (The witness shows
such a failing line is accepted by the grammar — which takes any nonempty
run of characters other than `]` as the timestamp — and only fails here.) -/
theorem claim_C6 {ls : List String} {rs : List LogDict}
    (h : readLogFile ls = .ok rs) :
    ((∃ r ∈ rs, parseTimestampStr r.timestamp = none) → ∃ e, pipeline rs = .error e) ∧
    ((∀ r ∈ rs, (parseTimestampStr r.timestamp).isSome = true) →
      ∃ rows, pipeline rs = .ok rows ∧ rows.length = rs.length ∧
        ∀ i r, rs.get? i = some r → ∃ row m, rows.get? i = some row ∧
          parseTimestampStr r.timestamp = some m ∧ row.timestamp = m) := by
  constructor
  · intro hex
    obtain ⟨e, he⟩ := coerceTimestamps_error hex
    unfold pipeline
    rw [he]
    exact ⟨e, rfl⟩
  · intro hall
    obtain ⟨ms, hms⟩ := coerceTimestamps_total hall
    have hsz : ∀ r ∈ rs, ∃ n, coerceSizeOpt r.size = .ok n := fun r hr =>
      ⟨_, readLogFile_sizeOk h r hr⟩
    obtain ⟨ns, hns⟩ := coerceSizes_total hsz
    refine ⟨buildRows rs ms ns, ?_, ?_, ?_⟩
    · unfold pipeline
      rw [hms, hns]
    · exact buildRows_get.1 (coerceTimestamps_ok hms).1 (coerceSizes_ok hns).1
    · intro i r hr
      obtain ⟨m, hm, hpm⟩ := (coerceTimestamps_ok hms).2 i r hr
      obtain ⟨n, hn, -⟩ := (coerceSizes_ok hns).2 i r hr
      exact ⟨_, m, buildRows_get.2 i r m n hr hm hn, hpm, rfl⟩

/-- C6 (witness): the line with timestamp text `bad` is accepted by the
grammar (the collector returns its record), and the pipeline then fails
fatally for the whole run. -/
theorem claim_C6_witness :
    parseLogLine badTsLine = .ok (some badTsRec) ∧
    readLogFile [badTsLine] = .ok [badTsRec] ∧
    parseTimestampStr badTsRec.timestamp = none ∧
    (∃ e, pipeline [badTsRec] = .error e) := by
  have h : readLogFile [badTsLine] = .ok [badTsRec] := rfl
  have hb : parseTimestampStr badTsRec.timestamp = none := rfl
  exact ⟨rfl, h, hb, (claim_C6 h).1 ⟨badTsRec, List.mem_singleton.mpr rfl, hb⟩⟩

/-- C7 (amended).  The claim as written — any characters after the size
field make the match fail — is false for one final newline (Python's `$`
matches just before it; see the counterexample).  Amended: any trailing
characters other than a single final newline make the match fail: whenever
the grammar pieces leave a nonempty remainder different from a lone
newline, `parse_log_line` returns the no-match signal. -/
theorem claim_C7_amended {s : String} {g : LogGroups} {rest : Chars}
    (h : matchRaw s.data = some (g, rest)) (h1 : rest ≠ []) (h2 : rest ≠ ['\n']) :
    parseLogLine s = .ok none := by
  have hnone : matchLogPattern s.data = none := by
    unfold matchLogPattern
    rw [h]
    show (if rest = [] ∨ rest = ['\n'] then some g else none) = none
    rw [if_neg]
    rintro (hc | hc)
    · exact h1 hc
    · exact h2 hc
  exact parseLogLine_of_nomatch hnone

/-- C7 (counterexample).  On `exLine` followed by a newline, the grammar
pieces leave the newline after the size field — characters do follow the
size field — yet the match succeeds and `parse_log_line` returns the full
record. -/
theorem claim_C7_cex :
    matchRaw (exLine ++ "\n").data = some (exGroups, ['\n']) ∧
    parseLogLine (exLine ++ "\n") = .ok (some exRec) :=
  ⟨rfl, rfl⟩

/-- C7 (witness): with `!` after the size field the match fails. -/
theorem claim_C7_witness :
    matchRaw (exLine ++ "!").data = some (exGroups, ['!']) ∧
    parseLogLine (exLine ++ "!") = .ok none := by
  have h : matchRaw (exLine ++ "!").data = some (exGroups, ['!']) := rfl
  exact ⟨h, claim_C7_amended h (by decide) (by decide)⟩

/-- C8 (amended).  The claim said the accepted client-address field is a
dotted-quad IPv4 literal or `NULL`; the regex `\d+\.\d+\.\d+\.\d+` actually
accepts any four dot-separated digit runs with no range check (see the
counterexample).  Amended: for every line the grammar accepts, the ip
capture is four dot-separated nonempty digit runs, or the literal `NULL`. -/
theorem claim_C8_amended {cs : Chars} {g : LogGroups}
    (h : matchLogPattern cs = some g) :
    isDigitQuad g.ip = true ∨ g.ip = "NULL".data := by
  obtain ⟨rest, hraw, -⟩ := matchLogPattern_inv h
  obtain ⟨⟨rIp, hip⟩, -, -⟩ := matchRaw_inv hraw
  rcases matchIp_shape hip with hq | hq
  · exact Or.inl hq
  · exact Or.inr hq

/-- C8 (counterexample).  `999.999.999.999` is accepted as the client
address and survives into the record, but it is not an IPv4 dotted-quad
literal (an octet exceeds 255) and is not `NULL`. -/
theorem claim_C8_cex :
    parseLogLine ip999Line = .ok (some ip999Rec) ∧
    ip999Rec.ip = "999.999.999.999" ∧
    isIPv4DottedQuad ip999Rec.ip.data = false ∧
    ip999Rec.ip ≠ "NULL" :=
  ⟨rfl, rfl, by decide, by decide⟩

/-- C8 (witness): the amended theorem applied to a dotted-quad line and to a
`NULL` line. -/
theorem claim_C8_witness :
    (matchLogPattern exLine.data = some exGroups ∧
      (isDigitQuad exGroups.ip = true ∨ exGroups.ip = "NULL".data)) ∧
    (matchLogPattern nullLine.data = some nullGroups ∧
      (isDigitQuad nullGroups.ip = true ∨ nullGroups.ip = "NULL".data)) := by
  have h1 : matchLogPattern exLine.data = some exGroups := rfl
  have h2 : matchLogPattern nullLine.data = some nullGroups := rfl
  exact ⟨⟨h1, claim_C8_amended h1⟩, ⟨h2, claim_C8_amended h2⟩⟩

/-- C9.  Frame of the coercion stage: the final rows (whose type has exactly
the seven selected columns) keep the parser's ip, method, url, status and
query strings unchanged — in particular a `NULL` client address survives as
the literal string and the status remains a three-digit text value; only
timestamp and size are transformed. -/
theorem claim_C9 {ls : List String} {rs : List LogDict} {rows : List Row}
    (h : readLogFile ls = .ok rs) (hp : pipeline rs = .ok rows) :
    rows.length = rs.length ∧
    ∀ i r, rs.get? i = some r → ∃ row, rows.get? i = some row ∧
      row.ip = r.ip ∧ row.method = r.method ∧ row.url = r.url ∧
      row.status = r.status ∧ row.query_parameters = r.query_parameters ∧
      (r.ip = "NULL" → row.ip = "NULL") ∧
      row.status.data.length = 3 ∧ (∀ c ∈ row.status.data, isDigitChar c) := by
  obtain ⟨ms, ns, hts, hss, rfl⟩ := pipeline_ok_inv hp
  obtain ⟨hlm, hgm⟩ := coerceTimestamps_ok hts
  obtain ⟨hln, hgn⟩ := coerceSizes_ok hss
  refine ⟨buildRows_get.1 hlm hln, fun i r hr => ?_⟩
  obtain ⟨m, hm, -⟩ := hgm i r hr
  obtain ⟨n, hn, -⟩ := hgn i r hr
  have hrow := buildRows_get.2 i r m n hr hm hn
  obtain ⟨l, -, hpl⟩ := readLogFile_mem h r (List.get?_mem hr)
  obtain ⟨-, -, hst3, hstd, -⟩ := parseLogLine_shape hpl
  exact ⟨_, hrow, rfl, rfl, rfl, rfl, rfl, fun hnull => by rw [hnull], hst3, hstd⟩

/-- C9 (witness): the `NULL` address and the `301` status text survive the
pipeline unchanged. -/
theorem claim_C9_witness :
    readLogFile [nullLine] = .ok [nullRec] ∧
    pipeline [nullRec] = .ok [nullRow] ∧
    nullRec.ip = "NULL" ∧
    (∃ row, ([nullRow] : List Row).get? 0 = some row ∧
      row.ip = nullRec.ip ∧ row.method = nullRec.method ∧ row.url = nullRec.url ∧
      row.status = nullRec.status ∧ row.query_parameters = nullRec.query_parameters ∧
      (nullRec.ip = "NULL" → row.ip = "NULL") ∧
      row.status.data.length = 3 ∧ (∀ c ∈ row.status.data, isDigitChar c)) := by
  have h : readLogFile [nullLine] = .ok [nullRec] := rfl
  have hp : pipeline [nullRec] = .ok [nullRow] := rfl
  exact ⟨h, hp, rfl, (claim_C9 h hp).2 0 nullRec rfl⟩

/-- C10 (amended).  The claim as written — `parse(s) = parse(s ++ "\n")` for
every string `s` — fails when `s` itself already ends in a newline (see the
counterexample: the `$` anchor tolerates exactly one final newline).
Amended: for every string that does not end in a newline, appending one
newline does not change the result of `parse_log_line`. -/
theorem claim_C10_amended {s : String} (h : s.data.getLast? ≠ some '\n') :
    parseLogLine (s ++ "\n") = parseLogLine s := by
  unfold parseLogLine
  have hd : (s ++ "\n").data = s.data ++ ['\n'] := rfl
  rw [hd]
  unfold parseLogLineCore
  rw [matchLogPattern_append_nl h]

/-- C10 (counterexample).  For the string `exLine ++ "\n"` — a line exactly
as handed over by the file reader — appending one more newline changes the
result from a full record to a no-match, so the claimed identity fails for
strings already ending in a newline. -/
theorem claim_C10_cex :
    parseLogLine (exLine ++ "\n") ≠ parseLogLine ((exLine ++ "\n") ++ "\n") := by
  have h1 : parseLogLine (exLine ++ "\n") = .ok (some exRec) := rfl
  have h2 : parseLogLine ((exLine ++ "\n") ++ "\n") = .ok none := rfl
  rw [h1, h2]
  intro hc
  injection hc with hc'
  cases hc'

/-- C10 (witness): the amended theorem applied to the spec's example line
(which does not end in a newline). -/
theorem claim_C10_witness :
    exLine.data.getLast? ≠ some '\n' ∧
    parseLogLine (exLine ++ "\n") = parseLogLine exLine := by
  have h : exLine.data.getLast? ≠ some '\n' := by decide
  exact ⟨h, claim_C10_amended h⟩

end NginxLog
